import Mathlib

/-!
Verification development for the `pdf-parser` repository: a shallow
embedding of the statement-parsing engine (the text-level pipelines of the
five issuer parser strategies, their amount normalizers, section bounding,
transaction-row reconstruction, and the parser registry), together with
theorems settling the specification claims.

Source files embedded here:
  src/parsers/axis_parser.py    (Axis strategy)
  src/parsers/hdfc_parser.py    (HDFC strategy)
  src/code/icici_parser.py      (ICICI strategy)
  src/code/idfc_parser.py       (IDFC strategy)
  src/code/rbl_parser.py        (RBL strategy)
  src/parsers/helper.py         (masked-card helper)
  src/parsers/__init__.py       (parser registry)

Conventions of the embedding:
* Python strings are modelled as `List Char`; text reaching the parsers
  comes from PDF extraction joined with "\n", so line handling models "\n"
  newlines (no "\r" reaches the core: hdfc normalizes "\r\n" first and the
  extractors produce "\n"-joined text).
* Python `Decimal` values are modelled as `ℚ`; the `Decimal` string
  constructor is modelled on the fragment it is applied to here (optional
  sign, digits, one decimal point; no exponents), with Python's
  leading/trailing-whitespace stripping.
* Python exceptions are modelled with `Except PyErr`; `None` results are
  `Option.none`.
* Uppercase/lowercase conversion models `str.lower`/`str.upper` on the
  ASCII range, which covers every string the parsers compare.
-/

/-- Python strings, as lists of characters. -/
abbrev Chars := List Char

/-- Python's default whitespace set (`str.strip`, regex `\s`), ASCII range. -/
def isPySpace (c : Char) : Bool :=
  c = ' ' || c = '\t' || c = '\n' || c = '\r' || c = '\x0b' || c = '\x0c'

/-- ASCII decimal digit (regex `\d`, ASCII fragment). -/
def isDig (c : Char) : Bool := '0' ≤ c && c ≤ '9'

/-- ASCII letter (regex `[A-Za-z]`). -/
def isAsciiAlpha (c : Char) : Bool :=
  ('A' ≤ c && c ≤ 'Z') || ('a' ≤ c && c ≤ 'z')

/-- Regex word character `\w` (ASCII fragment). -/
def isWordChar (c : Char) : Bool := isAsciiAlpha c || isDig c || c = '_'

/-- `str.lower` on one character (ASCII fragment). -/
def asciiLower (c : Char) : Char :=
  if 'A' ≤ c && c ≤ 'Z' then Char.ofNat (c.toNat + 32) else c

/-- `str.upper` on one character (ASCII fragment). -/
def asciiUpper (c : Char) : Char :=
  if 'a' ≤ c && c ≤ 'z' then Char.ofNat (c.toNat - 32) else c

/-- Python `str.lower` (ASCII fragment). -/
def pyLower (cs : Chars) : Chars := cs.map asciiLower

/-- Python `str.upper` (ASCII fragment). -/
def pyUpper (cs : Chars) : Chars := cs.map asciiUpper

/-- Python `str.strip()` with the default whitespace set. -/
def pyStrip (cs : Chars) : Chars :=
  ((cs.dropWhile isPySpace).reverse.dropWhile isPySpace).reverse

/-- Python truthiness of an optional string: `None` and `""` are falsy. -/
def pyFalsy : Option Chars → Bool
  | none => true
  | some s => s.isEmpty

/-- Python `str.splitlines()` for "\n"-separated text: like splitting on
"\n", except that the empty string yields no lines and a trailing "\n"
yields no final empty line. -/
def pySplitlines (cs : Chars) : List Chars :=
  if cs = [] then []
  else if cs.getLast? = some '\n' then (cs.splitOn '\n').dropLast
  else cs.splitOn '\n'

/-- `" ".join(...)`. -/
def joinSp (ls : List Chars) : Chars := List.intercalate [' '] ls

/-- Leftmost occurrence of `pat` in `hay` (Python `str.find`, as an
`Option` instead of `-1`; `find("")` is `0`, as in Python). -/
def findSub (pat : Chars) : Chars → Option Nat
  | [] => if pat.isPrefixOf ([] : Chars) then some 0 else none
  | c :: t =>
    if pat.isPrefixOf (c :: t) then some 0
    else (findSub pat t).map (· + 1)

/-- Python `pat in hay`. -/
def containsSub (hay pat : Chars) : Bool := (findSub pat hay).isSome

/-- Python `hay.find(pat, start)` (as an `Option`). -/
def findSubFrom (hay pat : Chars) (start : Nat) : Option Nat :=
  (findSub pat (hay.drop start)).map (· + start)

/-- Python slice `s[a:b]` for `0 ≤ a`, `0 ≤ b` (empty when `b ≤ a`,
clamped at the end of the string). -/
def pySlice (cs : Chars) (a b : Nat) : Chars := (cs.drop a).take (b - a)

/-- `re.sub(r"\s+", " ", text)`, one-pass with a previous-was-whitespace
flag: every whitespace run becomes exactly one space. -/
def collapseWsAux (prevSpace : Bool) : Chars → Chars
  | [] => []
  | c :: t =>
    if isPySpace c then
      (if prevSpace then [] else [' ']) ++ collapseWsAux true t
    else c :: collapseWsAux false t

/-- `re.sub(r"\s+", " ", text)`: collapse every whitespace run to one
space. -/
def collapseWs (cs : Chars) : Chars := collapseWsAux false cs

/-- Python `str.replace(old, new)` for non-empty `old`: replace every
non-overlapping occurrence, left to right.  (Structured over a fuel
counter for structural recursion; each step consumes at least one
character, so `cs.length` fuel always suffices.) -/
def replaceSubF (old new : Chars) : Nat → Chars → Chars
  | 0, cs => cs
  | _ + 1, [] => []
  | f + 1, c :: t =>
    if old ≠ [] && old.isPrefixOf (c :: t) then
      new ++ replaceSubF old new f ((c :: t).drop old.length)
    else c :: replaceSubF old new f t

/-- Python `str.replace(old, new)` for non-empty `old`. -/
def replaceSub (old new cs : Chars) : Chars := replaceSubF old new cs.length cs

/-- Python `str.split()` (split on whitespace runs, dropping empties),
with the word collected so far (reversed) as accumulator. -/
def pySplitWsAux (word : Chars) : Chars → List Chars
  | [] => if word = [] then [] else [word.reverse]
  | c :: t =>
    if isPySpace c then
      (if word = [] then [] else [word.reverse]) ++ pySplitWsAux [] t
    else pySplitWsAux (c :: word) t

/-- Python `str.split()`. -/
def pySplitWs (cs : Chars) : List Chars := pySplitWsAux [] cs

/-! ## Python `Decimal` string parsing, modelled on `ℚ`

`Decimal(s)` strips leading/trailing whitespace, then accepts an optional
sign, an integer part and/or a fractional part around one decimal point,
with at least one digit overall; anything else raises `InvalidOperation`.
(The exponent/NaN/Infinity forms of the full grammar never occur in this
repository's inputs and are not modelled.) -/

/-- Numeric value of a digit string (most significant first). -/
def digitsVal (ds : Chars) : Nat :=
  ds.foldl (fun a c => 10 * a + (c.toNat - 48)) 0

/-- `Decimal(s)` as a partial function into `ℚ` (`none` models the
`InvalidOperation` exception).  The value of `ip.fd` is the integer read
off all digits, divided by `10 ^ fd.length`; it is built with `mkRat`,
which is exactly that quotient. -/
def pyDecimal (raw : Chars) : Option ℚ :=
  let s := pyStrip raw
  let isNeg := s.head? = some '-'
  let s1 := if s.head? = some '-' ∨ s.head? = some '+' then s.tail else s
  let ip := s1.takeWhile isDig
  let rest := s1.dropWhile isDig
  let signed : ℚ → Option ℚ := fun v => some (if isNeg then -v else v)
  match rest with
  | [] => if ip = [] then none else signed (mkRat (digitsVal ip) 1)
  | c :: fr =>
    if c = '.' then
      let fd := fr.takeWhile isDig
      if fr.dropWhile isDig ≠ [] then none
      else if ip = [] ∧ fd = [] then none
      else signed
        (mkRat (digitsVal ip * 10 ^ fd.length + digitsVal fd) (10 ^ fd.length))
    else none

/-- Python exceptions raised by the embedded code. -/
inductive PyErr where
  /-- `AttributeError` (calling a `str` method on `None`). -/
  | attributeError : PyErr
  /-- `decimal.InvalidOperation` (unparseable `Decimal` string). -/
  | invalidOperation : PyErr
  /-- `ValueError("Unsupported issuer")` raised by the parser registry. -/
  | unsupportedIssuer : PyErr
  /-- `FileNotFoundError` from the document-access collaborator. -/
  | fileNotFound : PyErr
deriving DecidableEq, Repr

deriving instance DecidableEq for Except

/-! ## Amount normalizers (`_normalize_amount` of each strategy) -/

/-- `sign and sign.lower() == "cr"` (Axis/ICICI credit test: truthy sign
whose lower-casing is exactly `"cr"`). -/
def axisCrSign : Option Chars → Bool
  | some s => !s.isEmpty && decide (pyLower s = "cr".toList)
  | none => false

/-- src/parsers/axis_parser.py, `_normalize_amount(raw_amount, sign)`:
`value = Decimal(raw_amount.replace(",", ""))`; negate when
`sign and sign.lower() == "cr"`.  There is no `None`/empty guard: `None`
raises `AttributeError` at `.replace`, and an unparseable string (for
example `""`) raises `InvalidOperation` inside `Decimal`.
`replace(",", "")` removes every comma, i.e. filters them out. -/
def axisNormalizeAmount (raw : Option Chars) (sign : Option Chars) :
    Except PyErr ℚ :=
  match raw with
  | none => .error .attributeError
  | some r =>
    match pyDecimal (r.filter (fun c => c ≠ ',')) with
    | none => .error .invalidOperation
    | some value =>
      if axisCrSign sign then .ok (-value)
      else .ok value

/-- src/code/icici_parser.py, `_normalize_amount(raw_amount, sign)`:
like the Axis version but guarded by `if not raw_amount: return None`
(so its result is optional). -/
def iciciNormalizeAmount (raw : Option Chars) (sign : Option Chars) :
    Except PyErr (Option ℚ) :=
  if pyFalsy raw then .ok none
  else (axisNormalizeAmount raw sign).map some

/-- `sign and sign.lower() in {"cr", "credit"}` (IDFC/RBL credit test). -/
def idfcCrSign : Option Chars → Bool
  | some s => !s.isEmpty &&
      (decide (pyLower s = "cr".toList) || decide (pyLower s = "credit".toList))
  | none => false

/-- src/code/idfc_parser.py, `_normalize_amount(raw_amount, sign)`:
`clean = re.sub(r"[^0-9.\-]", "", raw_amount)` (keep digits, `.` and `-`),
`None` on falsy input or empty `clean`, then `Decimal(clean)`, negated when
`sign.lower()` is `"cr"` or `"credit"`. -/
def idfcNormalizeAmount (raw : Option Chars) (sign : Option Chars) :
    Except PyErr (Option ℚ) :=
  if pyFalsy raw then .ok none
  else
    let r := raw.getD []
    let clean := r.filter (fun c => isDig c || c = '.' || c = '-')
    if clean.isEmpty then .ok none
    else
      match pyDecimal clean with
      | none => .error .invalidOperation
      | some value =>
        if idfcCrSign sign then .ok (some (-value))
        else .ok (some value)

/-- src/code/rbl_parser.py, `_normalize_amount`: byte-identical to the
IDFC version. -/
def rblNormalizeAmount : Option Chars → Option Chars → Except PyErr (Option ℚ) :=
  idfcNormalizeAmount

/-! ## Section bounding -/

/-- src/parsers/axis_parser.py, lines 76–81: the transactions section
starts as `""`; the start marker `"Account Summary"` and the end marker
`"**** End of Statement ****"` are both looked up in the whole document;
only when the start marker is present is the slice
`document_text[start_idx : end_idx if end_idx != -1 else None]` taken
(note the end marker is searched from the beginning of the document, not
from the start marker, and a Python slice with `end < start` is empty). -/
def axisTransactionsSection (document_text : Chars) : Chars :=
  let start_idx := findSub ("Account Summary".toList) document_text
  let end_idx := findSub ("**** End of Statement ****".toList) document_text
  match start_idx with
  | none => []
  | some s =>
    match end_idx with
    | some e => pySlice document_text s e
    | none => document_text.drop s

/-- The ICICI end-marker list (src/code/icici_parser.py, line 99). -/
def iciciEndMarkers : List Chars :=
  ["Schedule of charges".toList, "Important Message".toList,
    "**** End of Statement ****".toList]

/-- src/code/icici_parser.py, lines 93–103: the section defaults to the
whole document; when `"Account Summary"` occurs, the section starts
there; the end markers are then looked up inside the (already cut)
section and the earliest of the occurring ones cuts it off.  (Every
position returned by `find` on a contained marker is `>= 0`, so the
`pos >= 0` filter in the `min` keeps everything.) -/
def iciciTransactionsSection (document_text : Chars) : Chars :=
  let sec :=
    match findSub ("Account Summary".toList) document_text with
    | some s => document_text.drop s
    | none => document_text
  let end_positions := iciciEndMarkers.filterMap
    (fun marker => if containsSub sec marker then findSub marker sec else none)
  match end_positions.min? with
  | some cutoff => sec.take cutoff
  | none => sec

/-- Modelled from the spec (§4.2 Section Bounding), as the reference
definition of claim C4: the section begins at the first occurrence of
the start marker, or at the beginning of the text when the start marker
is absent; it ends at the earliest end-marker occurrence at or after the
start, or at the end of the text when none occurs there. -/
def specSectionBound (text start : Chars) (ends : List Chars) : Chars :=
  let b := (findSub start text).getD 0
  let candidates := ends.filterMap (fun m => findSubFrom text m b)
  let e := candidates.min?.getD text.length
  pySlice text b e

/-! ## Transaction data model -/

/-- Transaction type enum (the `"debit"`/`"credit"` strings). -/
inductive TxType where
  | debit : TxType
  | credit : TxType
deriving DecidableEq, Repr

/-- One extracted transaction record. -/
structure Transaction where
  date : Chars
  description : Chars
  amount : ℚ
  type : TxType
deriving DecidableEq, Repr

/-! ## Row reconstruction

All five strategies share the same loop: find every `MULTILINE` match of a
row regex `^(?P<date>...)\s+(?P<body>.+)$`, pair each match with the next
one (or the end of the section), merge the lines of that span, strip the
date, and search an amount pattern anchored at the end of the body.

The embedding works per line: a `MULTILINE` `^...$` match of the row
pattern is a line whose text starts with the date followed by at least one
whitespace character and at least one further character (the `\s+` of the
pattern cannot cross a line boundary when, as in these statements, the
date anchor has its row text on the same line, since `.+` requires a
non-newline character before `$`).  A match's `start()` is the start of
its line, so the char spans `[match i.start, match i+1.start)` of the
source correspond to the line-index spans used here, and `chunk.strip()`/
`chunk.splitlines()` of a char span yield exactly the stripped non-empty
lines of the line span. -/

/-- `^(?P<date>\d{2}/\d{2}/\d{4})\s+(?P<body>.+)$` applied to one line:
returns the date group when the line is a row start.  Used by the Axis,
HDFC, ICICI and IDFC strategies. -/
def slashDateRowStart (ln : Chars) : Option Chars :=
  match ln with
  | d1 :: d2 :: '/' :: m1 :: m2 :: '/' :: y1 :: y2 :: y3 :: y4 :: rest =>
    if ([d1, d2, m1, m2, y1, y2, y3, y4].all isDig) &&
        (match rest with
         | w :: u => isPySpace w && u ≠ []
         | [] => false) then
      some [d1, d2, '/', m1, m2, '/', y1, y2, y3, y4]
    else none
  | _ => none

/-- `^(?P<date>\d{2}-[A-Za-z]{3}-\d{4})\s+(?P<body>.+)$` applied to one
line (RBL strategy). -/
def rblDateRowStart (ln : Chars) : Option Chars :=
  match ln with
  | d1 :: d2 :: '-' :: a1 :: a2 :: a3 :: '-' :: y1 :: y2 :: y3 :: y4 :: rest =>
    if ([d1, d2, y1, y2, y3, y4].all isDig) &&
        ([a1, a2, a3].all isAsciiAlpha) &&
        (match rest with
         | w :: u => isPySpace w && u ≠ []
         | [] => false) then
      some [d1, d2, '-', a1, a2, a3, '-', y1, y2, y3, y4]
    else none
  | _ => none

/-- Indices of the lines where the row pattern matches (the row-start
anchors), in document order. -/
def anchorIdxs (isRow : Chars → Option Chars) : List Chars → List Nat
  | [] => []
  | l :: ls =>
    if (isRow l).isSome then 0 :: (anchorIdxs isRow ls).map (· + 1)
    else (anchorIdxs isRow ls).map (· + 1)

/-- The raw span of each anchor: from its own start to the start of the
next anchor, or to the end of the section for the last anchor
(`end = matches[idx + 1].start() if idx + 1 < len(matches) else len(...)`). -/
def rowSpans : List Nat → Nat → List (Nat × Nat)
  | [], _ => []
  | [a], len => [(a, len)]
  | a :: b :: r, len => (a, b) :: rowSpans (b :: r) len

/-- The merged row body of one span: the span's stripped non-empty lines
joined by single spaces (`chunk.strip()`, `splitlines`, per-line strip and
filter, `" ".join`), with the leading date token stripped
(`merged[len(date):].strip()`).  `none` models the `continue` guards for
an all-whitespace chunk or an empty body. -/
def mergedRowBody (lines : List Chars) (sp : Nat × Nat) (date : Chars) :
    Option Chars :=
  let chunkLines := (lines.drop sp.1).take (sp.2 - sp.1)
  let lines_chunk := (chunkLines.map pyStrip).filter (fun l => l ≠ [])
  if lines_chunk = [] then none
  else
    let merged := joinSp lines_chunk
    let body := pyStrip (merged.drop date.length)
    if body = [] then none else some body

/-- Date and merged body of the row at one span (`none` when a guard
`continue`s; the span's first line is its anchor, so `isRow` yields the
date group there). -/
def rowAt (isRow : Chars → Option Chars) (lines : List Chars)
    (sp : Nat × Nat) : Option (Chars × Chars) :=
  match isRow (lines.getD sp.1 []) with
  | none => none
  | some date => (mergedRowBody lines sp date).map (fun b => (date, b))

/-- Leftmost position at which an end-anchored matcher succeeds
(`re.search` for a `$`-terminated pattern: the pattern must consume the
whole suffix, and the scan tries positions left to right). -/
def searchEnd {α : Type} (f : Chars → Option α) : Chars → Option (Nat × α)
  | [] => (f []).map (fun a => (0, a))
  | c :: t =>
    match f (c :: t) with
    | some a => some (0, a)
    | none => (searchEnd f t).map (fun pa => (pa.1 + 1, pa.2))

/-- The per-span loop body, over an exception-aware step; an exception in
one iteration aborts the whole loop (Python semantics), `none` skips the
row, and results are appended in span order. -/
def runRows (step : Nat × Nat → Except PyErr (Option Transaction)) :
    List (Nat × Nat) → Except PyErr (List Transaction)
  | [] => .ok []
  | sp :: r => do
    let t ← step sp
    let rest ← runRows step r
    pure (match t with
          | some tx => tx :: rest
          | none => rest)

/-- The shared extraction loop, parameterized by the row recognizer and
the per-row amount handling of one strategy. -/
def extractTransactionsWith (isRow : Chars → Option Chars)
    (txOfRow : Chars → Chars → Except PyErr (Option Transaction))
    (sectionText : Chars) : Except PyErr (List Transaction) :=
  let lines := pySplitlines sectionText
  runRows
    (fun sp =>
      match rowAt isRow lines sp with
      | none => .ok none
      | some db => txOfRow db.1 db.2)
    (rowSpans (anchorIdxs isRow lines) lines.length)

/-! ## Amount patterns

Each pattern is `$`-anchored and applied with `re.search` to a merged row
body (which contains no newline, so `$` is exactly end-of-string); the
embedding gives the matcher for one start position, consuming the whole
suffix, and `searchEnd` supplies the left-to-right scan.

Greediness makes each matcher deterministic except for the optional
1–2-digit fraction of the IDFC/RBL pattern, which is tried in the regex
backtracking order (two digits, one digit, absent):
* a shorter `[\d,]+` run would put a digit or comma where `\.` must
  match, so only the maximal run can succeed;
* a shorter leading glyph run would put a glyph (never a digit or a
  comma) where `[\d,]+` must start;
* `\s*` before the flag can only stop where a non-whitespace character
  follows, and the flag alternatives start with non-whitespace. -/

/-- `[\d,]` (digits or thousands separators). -/
def isDigitComma (c : Char) : Bool := isDig c || c = ','

/-- `(?P<amount>-?[\d,]+\.\d{2})\s*(?P<flags>...)?$` matched against a
whole suffix; returns the amount group and the optional flag group.
`flags` lists the literal flag alternatives (the pattern is compiled
without `IGNORECASE`). -/
def trailDecimalAmtAt (flags : List Chars) (cs : Chars) :
    Option (Chars × Option Chars) :=
  let minus : Chars := if cs.head? = some '-' then ['-'] else []
  let cs1 := if cs.head? = some '-' then cs.tail else cs
  let run := cs1.takeWhile isDigitComma
  let rest := cs1.dropWhile isDigitComma
  if run = [] then none
  else
    match rest with
    | d :: a :: b :: tail =>
      if d = '.' ∧ isDig a = true ∧ isDig b = true then
        let afterWs := tail.dropWhile isPySpace
        if afterWs = [] then some (minus ++ run ++ ['.', a, b], none)
        else if flags.any (fun fl => afterWs = fl) then
          some (minus ++ run ++ ['.', a, b], some afterWs)
        else none
      else none
    | _ => none

/-- Axis amount pattern
`(?P<amount>-?[\d,]+\.\d{2})\s*(?P<flag>Dr|Cr)?$`
(src/parsers/axis_parser.py, line 87). -/
def axisAmtAt : Chars → Option (Chars × Option Chars) :=
  trailDecimalAmtAt ["Dr".toList, "Cr".toList]

/-- ICICI amount pattern, identical to the Axis one
(src/code/icici_parser.py, line 110). -/
def iciciAmtAt : Chars → Option (Chars × Option Chars) := axisAmtAt

/-- HDFC amount pattern
`(?P<amount>-?[\d,]+\.\d{2})\s*(?P<credit>Cr)?$`
(src/parsers/hdfc_parser.py, lines 141–143). -/
def hdfcAmtAt : Chars → Option (Chars × Option Chars) :=
  trailDecimalAmtAt ["Cr".toList]

/-- The leading-glyph class `[₹rRs\x60.\s]` of the IDFC/RBL amount
patterns, under `IGNORECASE` (so `S` as well). -/
def isIdfcGlyph (c : Char) : Bool :=
  c = '₹' || c = 'r' || c = 'R' || c = 's' || c = 'S' || c = '`' ||
    c = '.' || isPySpace c

/-- Shared front of the IDFC/RBL amount patterns:
`-?[₹rRs\x60.\s]*[\d,]+(?:\.\d{1,2})?` with the backtracking order of the
optional fraction (two digits, one digit, absent), each continued by the
issuer's tail check on the remaining suffix. -/
def glyphDecimalAmtAt (tailOk : Chars → Option (Option Chars))
    (cs : Chars) : Option (Chars × Option Chars) :=
  let minus : Chars := if cs.head? = some '-' then ['-'] else []
  let cs1 := if cs.head? = some '-' then cs.tail else cs
  let glyphs := cs1.takeWhile isIdfcGlyph
  let cs2 := cs1.dropWhile isIdfcGlyph
  let run := cs2.takeWhile isDigitComma
  let rest := cs2.dropWhile isDigitComma
  if run = [] then none
  else
    let pre := minus ++ glyphs ++ run
    let try2 : Option (Chars × Option Chars) :=
      match rest with
      | d :: a :: b :: tail =>
        if d = '.' ∧ isDig a = true ∧ isDig b = true then
          (tailOk tail).map (fun fl => (pre ++ ['.', a, b], fl))
        else none
      | _ => none
    let try1 : Option (Chars × Option Chars) :=
      match rest with
      | d :: a :: tail =>
        if d = '.' ∧ isDig a = true then
          (tailOk tail).map (fun fl => (pre ++ ['.', a], fl))
        else none
      | _ => none
    let try0 : Option (Chars × Option Chars) :=
      (tailOk rest).map (fun fl => (pre, fl))
    try2 <|> try1 <|> try0

/-- IDFC amount pattern
`(?P<amount>-?[₹rRs\x60.\s]*[\d,]+(?:\.\d{1,2})?)\s*(?P<flag>CR|DR)?$`
with `IGNORECASE` (src/code/idfc_parser.py, lines 117–120): after the
amount, whitespace may precede the flag. -/
def idfcAmtAt : Chars → Option (Chars × Option Chars) :=
  glyphDecimalAmtAt (fun tail =>
    let afterWs := tail.dropWhile isPySpace
    if afterWs = [] then some none
    else if pyLower afterWs = "cr".toList || pyLower afterWs = "dr".toList then
      some (some afterWs)
    else none)

/-- RBL amount pattern
`(?P<amount>-?[₹rRs\x60.\s]*[\d,]+(?:\.\d{1,2})?)(?P<flag>Cr|CR|Dr|DR)?$`
with `IGNORECASE` (src/code/rbl_parser.py, lines 114–117): no whitespace
is allowed between the amount and the flag. -/
def rblAmtAt : Chars → Option (Chars × Option Chars) :=
  glyphDecimalAmtAt (fun tail =>
    if tail = [] then some none
    else if pyLower tail = "cr".toList || pyLower tail = "dr".toList then
      some (some tail)
    else none)

/-! ## Per-strategy transaction extraction

Each strategy instantiates the shared loop with its row recognizer and
its per-row amount handling.  `description = amount_regex.sub("", body)
.strip()` is embedded as stripping the prefix of the body before the
match: the pattern is `$`-anchored and cannot match the empty string, so
`sub` removes exactly the one (leftmost, suffix) match that `search`
found. -/

namespace Axis

/-- The per-row amount handling of the Axis loop
(src/parsers/axis_parser.py, lines 107–123): search the end-anchored
amount pattern, normalize with the flag, derive the type from the sign of
the normalized amount. -/
def txOfRow (date body : Chars) : Except PyErr (Option Transaction) :=
  match searchEnd axisAmtAt body with
  | none => .ok none
  | some (p, amt, flag) => do
    let amount ← axisNormalizeAmount (some amt) flag
    let description := pyStrip (body.take p)
    let tx_type := if amount < 0 then TxType.credit else TxType.debit
    pure (some ⟨date, description, amount, tx_type⟩)

/-- The transaction loop of `parse_axis_statement`
(src/parsers/axis_parser.py, lines 89–123), over a bounded section. -/
def extract_transactions (sectionText : Chars) : Except PyErr (List Transaction) :=
  extractTransactionsWith slashDateRowStart txOfRow sectionText

end Axis

namespace Icici

/-- The per-row amount handling of the ICICI loop
(src/code/icici_parser.py, lines 112–145): like Axis, plus the
`if amount is None: continue` guard after `_normalize_amount`. -/
def txOfRow (date body : Chars) : Except PyErr (Option Transaction) :=
  match searchEnd iciciAmtAt body with
  | none => .ok none
  | some (p, amt, flag) => do
    let amount? ← iciciNormalizeAmount (some amt) flag
    match amount? with
    | none => pure none
    | some amount =>
      let description := pyStrip (body.take p)
      let tx_type := if amount < 0 then TxType.credit else TxType.debit
      pure (some ⟨date, description, amount, tx_type⟩)

/-- The transaction loop of `parse_icici_statement`
(src/code/icici_parser.py, lines 105–145), over a bounded section. -/
def extract_transactions (sectionText : Chars) : Except PyErr (List Transaction) :=
  extractTransactionsWith slashDateRowStart txOfRow sectionText

end Icici

namespace Hdfc

/-- The per-row amount handling of `extract_transactions`
(src/parsers/hdfc_parser.py, lines 164–184):
`amount = Decimal(m_amt.group("amount").replace(",", ""))` (no
negation!), `credit = bool(m_amt.group("credit"))`, and the type is
derived from the flag, not from the sign of the amount. -/
def txOfRow (date rest : Chars) : Except PyErr (Option Transaction) :=
  match searchEnd hdfcAmtAt rest with
  | none => .ok none
  | some (p, amt, creditFlag) =>
    match pyDecimal (amt.filter (fun c => c ≠ ',')) with
    | none => .error .invalidOperation
    | some amount =>
      let credit := creditFlag.isSome
      let description := pyStrip (rest.take p)
      .ok (some ⟨date, description, amount,
        if credit then TxType.credit else TxType.debit⟩)

/-- `extract_transactions(block)` (src/parsers/hdfc_parser.py, lines
145–187), applied to the whole document text; `block.replace("\r\n",
"\n")` first. -/
def extract_transactions (block : Chars) : Except PyErr (List Transaction) :=
  extractTransactionsWith slashDateRowStart txOfRow
    (replaceSub ("\r\n".toList) ("\n".toList) block)

end Hdfc

namespace Idfc

/-- The per-row amount handling of `_extract_transactions`
(src/code/idfc_parser.py, lines 127–152), with the
`if amount is None: continue` guard. -/
def txOfRow (date body : Chars) : Except PyErr (Option Transaction) :=
  match searchEnd idfcAmtAt body with
  | none => .ok none
  | some (p, amt, flag) => do
    let amount? ← idfcNormalizeAmount (some amt) flag
    match amount? with
    | none => pure none
    | some amount =>
      let description := pyStrip (body.take p)
      let tx_type := if amount < 0 then TxType.credit else TxType.debit
      pure (some ⟨date, description, amount, tx_type⟩)

/-- The row loop of `_extract_transactions` (src/code/idfc_parser.py,
lines 116–152), over an already-collected section. -/
def extractRowsOfSection (sectionText : Chars) : Except PyErr (List Transaction) :=
  extractTransactionsWith slashDateRowStart txOfRow sectionText

end Idfc

namespace Rbl

/-- The per-row amount handling of `_extract_transactions`
(src/code/rbl_parser.py, lines 120–152), with the
`if amount is None: continue` guard. -/
def txOfRow (date body : Chars) : Except PyErr (Option Transaction) :=
  match searchEnd rblAmtAt body with
  | none => .ok none
  | some (p, amt, flag) => do
    let amount? ← rblNormalizeAmount (some amt) flag
    match amount? with
    | none => pure none
    | some amount =>
      let description := pyStrip (body.take p)
      let tx_type := if amount < 0 then TxType.credit else TxType.debit
      pure (some ⟨date, description, amount, tx_type⟩)

/-- `_extract_transactions(text)` (src/code/rbl_parser.py, lines
112–152): the RBL row loop runs over the whole document text (no section
bounding). -/
def extract_transactions (text : Chars) : Except PyErr (List Transaction) :=
  extractTransactionsWith rblDateRowStart txOfRow text

end Rbl

/-! ## A small pattern engine for the summary / identity regexes

Each remaining regex is expressed with ordered-choice backtracking
combinators: a pattern maps an input suffix to the list of its
(result, rest-of-input) alternatives in the regex engine's backtracking
order (greedy repetitions longest first, lazy ones shortest first,
alternation left to right).  `re.search` takes the first alternative at
the leftmost matching position, which is exactly Python's semantics for
these patterns.  Capturing groups return the characters actually
consumed. -/

/-- A backtracking pattern: all parses of a prefix of the input, in
preference order. -/
structure Pat (α : Type) where
  run : Chars → List (α × Chars)

instance : Monad Pat where
  pure a := ⟨fun cs => [(a, cs)]⟩
  bind m f := ⟨fun cs => (m.run cs).flatMap (fun p => ((f p.1).run p.2))⟩

/-- Ordered choice (regex alternation). -/
def porelse {α : Type} (a b : Pat α) : Pat α := ⟨fun cs => a.run cs ++ b.run cs⟩

/-- One character of a class. -/
def pch (p : Char → Bool) : Pat Char :=
  ⟨fun cs =>
    match cs with
    | [] => []
    | c :: t => if p c then [(c, t)] else []⟩

/-- Case-sensitive literal. -/
def plit (s : Chars) : Pat Chars :=
  ⟨fun cs => if s.isPrefixOf cs then [(s, cs.drop s.length)] else []⟩

/-- Case-insensitive literal (`re.IGNORECASE`); returns the consumed
characters as they appear in the input. -/
def plitci (s : Chars) : Pat Chars :=
  ⟨fun cs =>
    let taken := cs.take s.length
    if pyLower taken = pyLower s ∧ taken.length = s.length then
      [(taken, cs.drop s.length)]
    else []⟩

/-- Greedy class repetition with `lo ≤ count ≤ hi` (`p{lo,hi}`): all
splits of the maximal run, longest first. -/
def pclassBetween (p : Char → Bool) (lo hi : Nat) : Pat Chars :=
  ⟨fun cs =>
    let run := cs.takeWhile p
    let rest := cs.dropWhile p
    let upper := min hi run.length
    ((List.range (upper + 1 - lo)).map (fun j => upper - j)).map
      (fun k => (run.take k, run.drop k ++ rest))⟩

/-- Greedy class repetition with at least `lo` repeats (`p*`, `p+`,
`p{lo,}`): all splits of the maximal run, longest first. -/
def pclassGE (p : Char → Bool) (lo : Nat) : Pat Chars :=
  ⟨fun cs =>
    let run := cs.takeWhile p
    let rest := cs.dropWhile p
    ((List.range (run.length + 1 - lo)).map (fun j => run.length - j)).map
      (fun k => (run.take k, run.drop k ++ rest))⟩

/-- Exact class repetition (`p{n}`). -/
def pclassExact (p : Char → Bool) (n : Nat) : Pat Chars := pclassBetween p n n

/-- Optional group (`(...)?`, greedy: present first). -/
def popt {α : Type} (m : Pat α) : Pat (Option α) :=
  porelse (do let a ← m; pure (some a)) (pure none)

/-- Lazy class repetition, shortest first (`.*?` with the class of `.`). -/
def plazyAux (p : Char → Bool) : Chars → Chars → List (Chars × Chars)
  | taken, [] => [(taken.reverse, [])]
  | taken, c :: t =>
    (taken.reverse, c :: t) :: (if p c then plazyAux p (c :: taken) t else [])

/-- Lazy class repetition (`p*?`): shortest first. -/
def plazy (p : Char → Bool) : Pat Chars := ⟨fun cs => plazyAux p [] cs⟩

/-- Zero-width lookahead (`(?=...)`): atomic, keeps the first inner
alternative's result, consumes nothing. -/
def ppeek {α : Type} (m : Pat α) : Pat α :=
  ⟨fun cs =>
    match (m.run cs).head? with
    | some p => [(p.1, cs)]
    | none => []⟩

/-- Word-boundary `\b` right after a word character: succeeds when the
next character is absent or not a word character. -/
def pboundaryAfterWord : Pat Unit :=
  ⟨fun cs =>
    match cs with
    | [] => [((), [])]
    | c :: t => if isWordChar c then [] else [((), c :: t)]⟩

/-- `re.search`: leftmost matching position first, then the pattern's own
preference order; returns the match start, the result, and the input
remaining after the match. -/
def research {α : Type} (m : Pat α) : Chars → Option (Nat × α × Chars)
  | [] => (m.run []).head?.map (fun p => (0, p.1, p.2))
  | c :: t =>
    match (m.run (c :: t)).head? with
    | some p => some (0, p.1, p.2)
    | none => (research m t).map (fun r => (r.1 + 1, r.2.1, r.2.2))

/-- `\s+`. -/
def pws1 : Pat Chars := pclassGE isPySpace 1

/-- `\s*`. -/
def pws0 : Pat Chars := pclassGE isPySpace 0

/-- `\d{2}/\d{2}/\d{4}`. -/
def pdateSlash : Pat Chars := do
  let a ← pclassExact isDig 2
  let s1 ← plit ("/".toList)
  let b ← pclassExact isDig 2
  let s2 ← plit ("/".toList)
  let y ← pclassExact isDig 4
  pure (a ++ s1 ++ b ++ s2 ++ y)

/-- `\d{1,2}/\d{1,2}/\d{4}` (HDFC date fields). -/
def pdateSlashShort : Pat Chars := do
  let a ← pclassBetween isDig 1 2
  let s1 ← plit ("/".toList)
  let b ← pclassBetween isDig 1 2
  let s2 ← plit ("/".toList)
  let y ← pclassExact isDig 4
  pure (a ++ s1 ++ b ++ s2 ++ y)

/-- `[\d,]+\.\d{2}` (summary amount token). -/
def pAmt2 : Pat Chars := do
  let r ← pclassGE isDigitComma 1
  let d ← plit (".".toList)
  let f ← pclassExact isDig 2
  pure (r ++ d ++ f)

/-- `[:\-]?`. -/
def pcolonDash : Pat (Option Char) := popt (pch (fun c => c = ':' || c = '-'))

/-! ## Axis strategy pipeline (src/parsers/axis_parser.py) -/

namespace Axis

/-- `_extract_name(lines)`: find the line containing
`"MY ZONE CREDIT CARD STATEMENT"` (after upper-casing), then return the
first non-empty stripped line after it; `""` when nothing is found. -/
def firstNonemptyStripped : List Chars → Chars
  | [] => []
  | c :: r =>
    let c' := pyStrip c
    if c' ≠ [] then c' else firstNonemptyStripped r

/-- `_extract_name(lines)` (src/parsers/axis_parser.py, lines 33–41). -/
def extract_name : List Chars → Chars
  | [] => []
  | l :: ls =>
    if containsSub (pyUpper l) ("MY ZONE CREDIT CARD STATEMENT".toList) then
      firstNonemptyStripped ls
    else extract_name ls

/-- The named groups of the Axis summary regex. -/
structure Summary where
  total : Chars
  total_flag : Option Chars
  minimum : Chars
  minimum_flag : Option Chars
  period : Chars
  payment_due : Chars
  generated : Option Chars

/-- `(Dr|Cr)?` under `IGNORECASE`. -/
def pflagDrCr : Pat (Option Chars) :=
  popt (porelse (plitci ("Dr".toList)) (plitci ("Cr".toList)))

/-- The Axis summary regex (src/parsers/axis_parser.py, lines 50–61):
`Total\s+Payment\s+Due.*?\n` then the total, minimum (each
`[\d,]+\.\d{2}` with optional `Dr|Cr` flag), the statement period
(`date\s*-\s*date`), the payment due date, and an optional generated
date, with `IGNORECASE`. -/
def summaryPat : Pat Summary := do
  let _ ← plitci ("Total".toList)
  let _ ← pws1
  let _ ← plitci ("Payment".toList)
  let _ ← pws1
  let _ ← plitci ("Due".toList)
  let _ ← plazy (fun c => c ≠ '\n')
  let _ ← plit ("\n".toList)
  let total ← pAmt2
  let _ ← pws0
  let total_flag ← pflagDrCr
  let _ ← pws1
  let minimum ← pAmt2
  let _ ← pws0
  let minimum_flag ← pflagDrCr
  let _ ← pws1
  let period ← (do
    let a ← pdateSlash
    let w1 ← pws0
    let dash ← plit ("-".toList)
    let w2 ← pws0
    let b ← pdateSlash
    pure (a ++ w1 ++ dash ++ w2 ++ b))
  let _ ← pws1
  let payment_due ← pdateSlash
  let generated ← popt (do
    let _ ← pws1
    pdateSlash)
  pure ⟨total, total_flag, minimum, minimum_flag, period, payment_due, generated⟩

/-- The `ParsedStatement` of the Axis strategy (the dictionary returned
by `parse_axis_statement`, minus the `file_path`, which belongs to the
excluded I/O boundary). -/
structure Result where
  card_last4_digits : List Chars
  name : Chars
  statement_period : Chars
  payment_due_date : Chars
  statement_generated_date : Chars
  total_payment_due : Option ℚ
  minimum_payment_due : Option ℚ
  transactions : List Transaction
deriving DecidableEq, Repr

/-- The text-level pipeline of `parse_axis_statement`
(src/parsers/axis_parser.py, lines 44–135): everything after
`get_document_text` / `extract_last4s_from_pdf` (PDF I/O, passed in as
arguments). -/
def parse_statement_text (document_text : Chars) (card_last4s : List Chars) :
    Except PyErr Result := do
  let lines := (pySplitlines document_text).map pyStrip
  let name := extract_name lines
  let summary_match := research summaryPat document_text
  let (statement_period, payment_due_date, statement_generated,
      total_payment_due, minimum_payment_due) ←
    match summary_match with
    | none => pure (([] : Chars), ([] : Chars), ([] : Chars),
        (none : Option ℚ), (none : Option ℚ))
    | some (_, g, _) => do
      let total ← axisNormalizeAmount (some g.total) g.total_flag
      let minimum ← axisNormalizeAmount (some g.minimum) g.minimum_flag
      pure (pyStrip g.period, g.payment_due, g.generated.getD [],
        some total, some minimum)
  let transactions ← extract_transactions (axisTransactionsSection document_text)
  pure
    { card_last4_digits := card_last4s
      name := name
      statement_period := statement_period
      payment_due_date := payment_due_date
      statement_generated_date := statement_generated
      total_payment_due := total_payment_due
      minimum_payment_due := minimum_payment_due
      transactions := transactions }

end Axis

/-! ## ICICI strategy pipeline (src/code/icici_parser.py) -/

/-- Mask characters `[Xx\*]`. -/
def isMaskChar (c : Char) : Bool := c = 'X' || c = 'x' || c = '*'

namespace Icici

/-- The masked-card pattern of `_extract_customer_details`
(src/code/icici_parser.py, line 44):
`(\d{4}\s+[Xx\*]{2,}\s+[Xx\*]{2,}\s+\d{3,4})`. -/
def cardPat : Pat Chars := do
  let a ← pclassExact isDig 4
  let w1 ← pws1
  let x1 ← pclassGE isMaskChar 2
  let w2 ← pws1
  let x2 ← pclassGE isMaskChar 2
  let w3 ← pws1
  let d ← pclassBetween isDig 3 4
  pure (a ++ w1 ++ x1 ++ w2 ++ x2 ++ w3 ++ d)

/-- The candidate loop of `_extract_customer_details` (lines 38–51):
process the first non-empty (stripped) candidate; on a card match the
masked number is the matched group and the name is the text before the
match (or the candidate with the masked number removed); otherwise the
candidate is the name. -/
def customerFromCandidates : List Chars → Chars × Chars
  | [] => ([], [])
  | cand :: r =>
    let c := pyStrip cand
    if c = [] then customerFromCandidates r
    else
      match research cardPat c with
      | some (start, matched, _) =>
        let masked := matched
        let name0 := pyStrip (c.take start)
        let name := if name0 = [] then pyStrip (replaceSub masked [] c) else name0
        (name, masked)
      | none => (c, [])

/-- `_extract_customer_details(lines)` (src/code/icici_parser.py, lines
34–53): scan for a line starting (stripped, lower-cased) with
`"customer name"`, look at the next four lines, and stop once a name or
masked card was found. -/
def extract_customer_details : List Chars → Chars × Chars
  | [] => ([], [])
  | l :: ls =>
    if ("customer name".toList).isPrefixOf (pyLower (pyStrip l)) then
      let nm := customerFromCandidates (ls.take 4)
      if nm.1 ≠ [] ∨ nm.2 ≠ [] then nm
      else extract_customer_details ls
    else extract_customer_details ls

/-- The named groups of the ICICI summary regex. -/
structure Summary where
  statement_date : Chars
  minimum : Chars
  total : Chars

/-- The ICICI summary regex (src/code/icici_parser.py, lines 62–66),
applied to the whitespace-collapsed text, with `IGNORECASE`:
`Statement\s+Date\s+Minimum\s+Amount\s+Due\s+Your\s+Total\s+Amount\s+Due\s+`
then date, `\s*\|?\s*`, minimum, `\s*\|?\s*`, total. -/
def summaryPat : Pat Summary := do
  let _ ← plitci ("Statement".toList)
  let _ ← pws1
  let _ ← plitci ("Date".toList)
  let _ ← pws1
  let _ ← plitci ("Minimum".toList)
  let _ ← pws1
  let _ ← plitci ("Amount".toList)
  let _ ← pws1
  let _ ← plitci ("Due".toList)
  let _ ← pws1
  let _ ← plitci ("Your".toList)
  let _ ← pws1
  let _ ← plitci ("Total".toList)
  let _ ← pws1
  let _ ← plitci ("Amount".toList)
  let _ ← pws1
  let _ ← plitci ("Due".toList)
  let _ ← pws1
  let statement_date ← pdateSlash
  let _ ← pws0
  let _ ← popt (plit ("|".toList))
  let _ ← pws0
  let minimum ← pAmt2
  let _ ← pws0
  let _ ← popt (plit ("|".toList))
  let _ ← pws0
  let total ← pAmt2
  pure ⟨statement_date, minimum, total⟩

/-- `Statement\s*Period\s*[:\-]?\s*(\d{2}/\d{2}/\d{4}\s*-\s*\d{2}/\d{2}/\d{4})`
with `IGNORECASE` (lines 78–82). -/
def periodPat : Pat Chars := do
  let _ ← plitci ("Statement".toList)
  let _ ← pws0
  let _ ← plitci ("Period".toList)
  let _ ← pws0
  let _ ← pcolonDash
  let _ ← pws0
  let a ← pdateSlash
  let w1 ← pws0
  let dash ← plit ("-".toList)
  let w2 ← pws0
  let b ← pdateSlash
  pure (a ++ w1 ++ dash ++ w2 ++ b)

/-- `Due\s+Date\s*[:\-]?\s*(\d{2}/\d{2}/\d{4})` with `IGNORECASE`
(lines 85–89). -/
def dueDatePat : Pat Chars := do
  let _ ← plitci ("Due".toList)
  let _ ← pws1
  let _ ← plitci ("Date".toList)
  let _ ← pws0
  let _ ← pcolonDash
  let _ ← pws0
  pdateSlash

/-- The `ParsedStatement` of the ICICI strategy (minus `file_path`). -/
structure Result where
  card_last4_digits : List Chars
  masked_card_number : Chars
  name : Chars
  statement_date : Chars
  statement_period : Chars
  payment_due_date : Chars
  total_amount_due : Option ℚ
  minimum_amount_due : Option ℚ
  transactions : List Transaction
deriving DecidableEq, Repr

/-- The text-level pipeline of `parse_icici_statement`
(src/code/icici_parser.py, lines 56–160). -/
def parse_statement_text (document_text : Chars) (card_last4s : List Chars) :
    Except PyErr Result := do
  let lines := pySplitlines document_text
  let cleaned := collapseWs document_text
  let nm := extract_customer_details lines
  let (statement_date, minimum_amount_due, total_amount_due) ←
    match research summaryPat cleaned with
    | none => pure (([] : Chars), (none : Option ℚ), (none : Option ℚ))
    | some (_, g, _) => do
      let minimum ← iciciNormalizeAmount (some g.minimum) none
      let total ← iciciNormalizeAmount (some g.total) none
      pure (g.statement_date, minimum, total)
  let statement_period :=
    match research periodPat document_text with
    | some (_, p, _) => p
    | none => []
  let payment_due_date :=
    match research dueDatePat document_text with
    | some (_, d, _) => d
    | none => []
  let transactions ← extract_transactions (iciciTransactionsSection document_text)
  pure
    { card_last4_digits := card_last4s
      masked_card_number := nm.2
      name := nm.1
      statement_date := statement_date
      statement_period := statement_period
      payment_due_date := payment_due_date
      total_amount_due := total_amount_due
      minimum_amount_due := minimum_amount_due
      transactions := transactions }

end Icici

/-! ## HDFC strategy pipeline (src/parsers/hdfc_parser.py) -/

namespace Hdfc

/-- `clean_text(text)` (src/parsers/hdfc_parser.py, lines 79–82):
collapse all whitespace to single spaces, then turn `" ."` into `"."`
and `" ,"` into `","`, then strip. -/
def clean_text (text : Chars) : Chars :=
  pyStrip (replaceSub (" ,".toList) (",".toList)
    (replaceSub (" .".toList) (".".toList) (collapseWs text)))

/-- `(Email|Mobile|Phone)` under `IGNORECASE`. -/
def contactWordPat : Pat Chars :=
  porelse (plitci ("Email".toList))
    (porelse (plitci ("Mobile".toList)) (plitci ("Phone".toList)))

/-- The name regex of `hdfc_extract_statement_info` (lines 91–95):
`Name\s*[:\-]?\s*([A-Za-z\s\.]+?)(?=\s+(Email|Mobile|Phone)\b)` with
`IGNORECASE`.  The group is a lazy class repetition (shortest
alternatives first, at least one character), stopped by a lookahead. -/
def namePat : Pat Chars := do
  let _ ← plitci ("Name".toList)
  let _ ← pws0
  let _ ← pcolonDash
  let _ ← pws0
  let c0 ← pch (fun c => isAsciiAlpha c || isPySpace c || c = '.')
  let cr ← plazy (fun c => isAsciiAlpha c || isPySpace c || c = '.')
  let _ ← ppeek (do
    let _ ← pws1
    let w ← contactWordPat
    let _ ← pboundaryAfterWord
    pure w)
  pure (c0 :: cr)

/-- The statement-date regex (lines 98–102):
`Statement\s*Date\s*[:\-]?\s*(\d{1,2}/\d{1,2}/\d{4})` with `IGNORECASE`. -/
def statementDatePat : Pat Chars := do
  let _ ← plitci ("Statement".toList)
  let _ ← pws0
  let _ ← plitci ("Date".toList)
  let _ ← pws0
  let _ ← pcolonDash
  let _ ← pws0
  pdateSlashShort

/-- `[\d,]+(?:\.\d{2})?` (HDFC summary amount: the decimal part is
optional here). -/
def pAmtOpt2 : Pat Chars := do
  let r ← pclassGE isDigitComma 1
  let f ← popt (do
    let d ← plit (".".toList)
    let x ← pclassExact isDig 2
    pure (d ++ x))
  pure (r ++ f.getD [])

/-- The shared label prefix of the two HDFC summary patterns:
`Payment\s+Due\s+Date\s+Total\s+Dues\s+Minimum\s+Amount\s+Due\s+`. -/
def summaryLabelPat : Pat Unit := do
  let _ ← plitci ("Payment".toList)
  let _ ← pws1
  let _ ← plitci ("Due".toList)
  let _ ← pws1
  let _ ← plitci ("Date".toList)
  let _ ← pws1
  let _ ← plitci ("Total".toList)
  let _ ← pws1
  let _ ← plitci ("Dues".toList)
  let _ ← pws1
  let _ ← plitci ("Minimum".toList)
  let _ ← pws1
  let _ ← plitci ("Amount".toList)
  let _ ← pws1
  let _ ← plitci ("Due".toList)
  let _ ← pws1
  pure ()

/-- `amount_in_order` (lines 104–108): label then
`(\d{1,2}/\d{1,2}/\d{4})\s+([\d,]+(?:\.\d{2})?)\s+([\d,]+(?:\.\d{2})?)`,
groups (payment due date, total dues, minimum due). -/
def amountInOrderPat : Pat (Chars × Chars × Chars) := do
  let _ ← summaryLabelPat
  let d ← pdateSlashShort
  let _ ← pws1
  let t ← pAmtOpt2
  let _ ← pws1
  let m ← pAmtOpt2
  pure (d, t, m)

/-- `amount_last` (lines 109–113): label then
`([\d,]+(?:\.\d{2})?)\s+([\d,]+(?:\.\d{2})?)\s+(\d{1,2}/\d{1,2}/\d{4})`,
groups (total dues, minimum due, payment due date). -/
def amountLastPat : Pat (Chars × Chars × Chars) := do
  let _ ← summaryLabelPat
  let t ← pAmtOpt2
  let _ ← pws1
  let m ← pAmtOpt2
  let _ ← pws1
  let d ← pdateSlashShort
  pure (t, m, d)

/-- The `info` dictionary built by `hdfc_extract_statement_info`
(lines 85–133); each key is present only when its pattern matched, so
every field is optional.  The total/minimum fields stay raw strings in
this strategy. -/
structure Info where
  name : Option Chars
  statement_date : Option Chars
  payment_due_date : Option Chars
  total_dues : Option Chars
  minimum_amount_due : Option Chars
deriving DecidableEq, Repr

/-- `hdfc_extract_statement_info(details_text, statement_text)`
(src/parsers/hdfc_parser.py, lines 85–133). -/
def extract_statement_info (details_text statement_text : Chars) : Info :=
  let details_clean := clean_text details_text
  let statement_clean := clean_text statement_text
  let name :=
    match research namePat details_clean with
    | some (_, g, _) => some (pyStrip g)
    | none => none
  let statement_date :=
    match research statementDatePat statement_clean with
    | some (_, g, _) => some g
    | none => none
  let fields :=
    match research amountInOrderPat statement_clean with
    | some (_, (d, t, m), _) => some (d, t, m)
    | none =>
      match research amountLastPat statement_clean with
      | some (_, (t, m, d), _) => some (d, t, m)
      | none => none
  { name := name
    statement_date := statement_date
    payment_due_date := fields.map (fun f => f.1)
    total_dues := fields.map (fun f => f.2.1)
    minimum_amount_due := fields.map (fun f => f.2.2) }

/-- The HDFC result record (minus `file_path`): the statement info from
the two page regions and the transactions from the full text. -/
structure Result where
  card_last4_digits : List Chars
  statement_info : Info
  transactions : List Transaction
deriving DecidableEq, Repr

/-- The text-level pipeline of `parse_hdfc_statement`
(src/parsers/hdfc_parser.py, lines 189–213): the two rectangle texts and
the full document text are extracted by the PDF collaborators and passed
in here. -/
def parse_statement_text (details_text statement_text full_text : Chars)
    (card_last4s : List Chars) : Except PyErr Result := do
  let statement_info := extract_statement_info details_text statement_text
  let transactions ← extract_transactions full_text
  pure
    { card_last4_digits := card_last4s
      statement_info := statement_info
      transactions := transactions }

end Hdfc

/-! ## IDFC strategy pipeline (src/code/idfc_parser.py) -/

namespace Idfc

/-- One-position match of the name-loop card pattern
`\b\d{4}[Xx\*]{2,}\d{2,}\b` (src/code/idfc_parser.py, line 39): four
digits, two or more mask characters, two or more digits, with word
boundaries (`\b` before needs a non-word predecessor, handled by the
caller; `\b` after needs a non-word successor or the end).  The greedy
runs are forced: a shorter mask run ends on a mask character where a
digit is required, and a shorter digit run leaves a digit successor,
which is a word character. -/
def cardAt (cs : Chars) : Bool :=
  match cs with
  | a :: b :: c :: d :: rest =>
    ([a, b, c, d].all isDig) &&
    (let xs := rest.takeWhile isMaskChar
     let r2 := rest.dropWhile isMaskChar
     decide (xs.length ≥ 2) &&
     (let ds := r2.takeWhile isDig
      let r3 := r2.dropWhile isDig
      decide (ds.length ≥ 2) &&
      (match r3 with
       | [] => true
       | e :: _ => !isWordChar e)))
  | _ => false

/-- `card_pattern.search(...)`: try every position, tracking the
previous character for the leading `\b`. -/
def cardSearchAux (prev : Option Char) : Chars → Bool
  | [] => false
  | c :: t =>
    ((match prev with
      | none => true
      | some p => !isWordChar p) && cardAt (c :: t)) ||
    cardSearchAux (some c) t

/-- `card_pattern.search(line.replace(" ", ""))`. -/
def cardSearchNoSpace (line : Chars) : Bool :=
  cardSearchAux none (line.filter (fun c => c ≠ ' '))

/-- Index of the first line whose space-stripped text contains the card
pattern (the outer loop of `_extract_name`). -/
def firstCardLineIdx : List Chars → Option Nat
  | [] => none
  | l :: ls =>
    if cardSearchNoSpace l then some 0
    else (firstCardLineIdx ls).map (· + 1)

/-- The backward window of `_extract_name` (lines 40–45): for
`prev in range(idx - 1, max(-1, idx - 6), -1)`, return the first
stripped candidate that is non-empty, does not itself contain the card
pattern (space-stripped), and has no `":"`. -/
def windowName (lines : List Chars) : List Nat → Chars
  | [] => []
  | i :: r =>
    let candidate := pyStrip (lines.getD i [])
    if candidate ≠ [] && !cardSearchNoSpace candidate &&
        !containsSub candidate (":".toList) then candidate
    else windowName lines r

/-- `\d{2}/\d{2}/\d{4}\s*-` (the date-range test of the name
fallback). -/
def hasDateDash (s : Chars) : Bool :=
  (research (do
    let _ ← pdateSlash
    let _ ← pws0
    plit ("-".toList)) s).isSome

/-- The fallback scan of `_extract_name` (lines 47–58) over the first
ten lines. -/
def fallbackName : List Chars → Chars
  | [] => []
  | l :: r =>
    let s := pyStrip l
    if s = [] then fallbackName r
    else if containsSub (pyLower s) ("credit card statement".toList) then
      fallbackName r
    else if hasDateDash s then fallbackName r
    else if containsSub s (":".toList) then fallbackName r
    else if s.any isAsciiAlpha then s
    else fallbackName r

/-- `_extract_name(lines)` (src/code/idfc_parser.py, lines 38–59). -/
def extract_name (lines : List Chars) : Chars :=
  match firstCardLineIdx lines with
  | some idx => windowName lines ((List.range (min 5 idx)).map (fun k => idx - 1 - k))
  | none => fallbackName (lines.take 10)

/-- `(\d{4}[\sXx\*]{4,}\d{2,4})` (line 63). -/
def maskedPat1 : Pat Chars := do
  let a ← pclassExact isDig 4
  let x ← pclassGE (fun c => isPySpace c || isMaskChar c) 4
  let d ← pclassBetween isDig 2 4
  pure (a ++ x ++ d)

/-- `([Xx\*]{2,}\s*\d{3,4})` (line 66). -/
def maskedPat2 : Pat Chars := do
  let x ← pclassGE isMaskChar 2
  let w ← pws0
  let d ← pclassBetween isDig 3 4
  pure (x ++ w ++ d)

/-- `_extract_masked_card(text)` (lines 62–67): first pattern, then the
alternative; whitespace inside the match is removed
(`re.sub(r"\s+", "", ...)`). -/
def extract_masked_card (text : Chars) : Chars :=
  match research maskedPat1 text with
  | some (_, g, _) => g.filter (fun c => !isPySpace c)
  | none =>
    match research maskedPat2 text with
    | some (_, g, _) => g.filter (fun c => !isPySpace c)
    | none => []

/-- Removal of `\(cid:[^)]+\)` artifacts (`_strip_artifacts`, lines
70–71), fueled for structural recursion. -/
def stripCidF : Nat → Chars → Chars
  | 0, cs => cs
  | _ + 1, [] => []
  | f + 1, c :: t =>
    if ("(cid:".toList).isPrefixOf (c :: t) then
      let after := (c :: t).drop 5
      let inner := after.takeWhile (fun x => x ≠ ')')
      let rest := after.dropWhile (fun x => x ≠ ')')
      if inner ≠ [] ∧ rest ≠ [] then stripCidF f (rest.drop 1)
      else c :: stripCidF f t
    else c :: stripCidF f t

/-- `_strip_artifacts(value)`. -/
def strip_artifacts (cs : Chars) : Chars := pyStrip (stripCidF cs.length cs)

/-- The summary-amount group
`([₹rRs\x60.\s]*[\d,]+(?:\.\d{1,2})?)` (with `IGNORECASE`). -/
def pGlyphAmt : Pat Chars := do
  let gl ← pclassGE isIdfcGlyph 0
  let run ← pclassGE isDigitComma 1
  let fr ← popt (do
    let d ← plit (".".toList)
    let x ← pclassBetween isDig 1 2
    pure (d ++ x))
  pure (gl ++ run ++ fr.getD [])

/-- The labelled summary-amount pattern of `_extract_summary_amount`
(lines 74–82): `label\s*(?:[:\-])?\s*\n\s*(amount group)`, `IGNORECASE`. -/
def summaryAmountPat (label : Chars) : Pat Chars := do
  let _ ← plitci label
  let _ ← pws0
  let _ ← pcolonDash
  let _ ← pws0
  let _ ← plit ("\n".toList)
  let _ ← pws0
  pGlyphAmt

/-- `_extract_summary_amount(label, text)` (lines 74–82). -/
def extract_summary_amount (label text : Chars) : Except PyErr (Option ℚ) :=
  match research (summaryAmountPat label) text with
  | some (_, g, _) => idfcNormalizeAmount (some g) none
  | none => .ok none

/-- `[A-Za-z]+\s+\d{1,2},\s*\d{4}` (month-name date alternative). -/
def pMonthDate : Pat Chars := do
  let a ← pclassGE isAsciiAlpha 1
  let w ← pws1
  let d ← pclassBetween isDig 1 2
  let com ← plit (",".toList)
  let w2 ← pws0
  let y ← pclassExact isDig 4
  pure (a ++ w ++ d ++ com ++ w2 ++ y)

/-- `([A-Za-z]+\s+\d{1,2},\s*\d{4}|\d{2}/\d{2}/\d{4})`. -/
def pAltDate : Pat Chars := porelse pMonthDate pdateSlash

/-- `(\d{2}/\d{2}/\d{4})\s*-\s*(\d{2}/\d{2}/\d{4})` (lines 162–165, no
flags). -/
def periodPat1 : Pat (Chars × Chars) := do
  let a ← pdateSlash
  let _ ← pws0
  let _ ← plit ("-".toList)
  let _ ← pws0
  let b ← pdateSlash
  pure (a, b)

/-- `From\s*[:\-]?\s*(\d{2}/\d{2}/\d{4}).*?To\s*[:\-]?\s*(\d{2}/\d{2}/\d{4})`
with `IGNORECASE | DOTALL` (lines 167–171),. -/
def periodPat2 : Pat (Chars × Chars) := do
  let _ ← plitci ("From".toList)
  let _ ← pws0
  let _ ← pcolonDash
  let _ ← pws0
  let a ← pdateSlash
  let _ ← plazy (fun _ => true)
  let _ ← plitci ("To".toList)
  let _ ← pws0
  let _ ← pcolonDash
  let _ ← pws0
  let b ← pdateSlash
  pure (a, b)

/-- `Statement\s+Date\s*\n\s*(date alternative)` with `IGNORECASE`
(lines 177–181). -/
def statementDatePat : Pat Chars := do
  let _ ← plitci ("Statement".toList)
  let _ ← pws1
  let _ ← plitci ("Date".toList)
  let _ ← pws0
  let _ ← plit ("\n".toList)
  let _ ← pws0
  pAltDate

/-- `Payment\s+Due\s+Date\s*\n\s*(date alternative)` with `IGNORECASE`
(lines 184–188). -/
def paymentDuePat1 : Pat Chars := do
  let _ ← plitci ("Payment".toList)
  let _ ← pws1
  let _ ← plitci ("Due".toList)
  let _ ← pws1
  let _ ← plitci ("Date".toList)
  let _ ← pws0
  let _ ← plit ("\n".toList)
  let _ ← pws0
  pAltDate

/-- `Payment\s+Due\s+Date\s*[:\-]?\s*(date alternative)` with
`IGNORECASE` (lines 190–194). -/
def paymentDuePat2 : Pat Chars := do
  let _ ← plitci ("Payment".toList)
  let _ ← pws1
  let _ ← plitci ("Due".toList)
  let _ ← pws1
  let _ ← plitci ("Date".toList)
  let _ ← pws0
  let _ ← pcolonDash
  let _ ← pws0
  pAltDate

/-- The end markers of `_collect_transaction_text` (lines 86–91). -/
def endMarkers : List Chars :=
  ["REWARDS SUMMARY".toList, "SPECIAL BENEFITS".toList,
    "IMPORTANT INFORMATION".toList, "REWARDS".toList]

/-- The `while True` loop of `_collect_transaction_text` (lines 93–104),
fueled for structural recursion: each pass advances `start` past the
marker, so `text.length + 1` fuel suffices. -/
def collectAux (text : Chars) : Nat → Nat → List Chars
  | 0, _ => []
  | f + 1, start =>
    match findSubFrom text ("YOUR TRANSACTIONS".toList) start with
    | none => []
    | some idx =>
      let after := idx + ("YOUR TRANSACTIONS".toList).length
      let endPos := endMarkers.foldl
        (fun e mark =>
          match findSubFrom text mark after with
          | some c => min e c
          | none => e)
        text.length
      pySlice text idx endPos :: collectAux text f endPos

/-- `_collect_transaction_text(text)` (lines 84–105): collect every
`"YOUR TRANSACTIONS"` block up to the earliest end marker after it, and
join the blocks with `"\n"`. -/
def collect_transaction_text (text : Chars) : Chars :=
  let collected := collectAux text (text.length + 1) 0
  if collected = [] then []
  else List.intercalate ("\n".toList) collected

/-- `_extract_transactions(text)` (src/code/idfc_parser.py, lines
108–152): collect the transactions section, return `[]` when it is
empty, otherwise run the row loop. -/
def extract_transactions (text : Chars) : Except PyErr (List Transaction) :=
  let sectionText := collect_transaction_text text
  if sectionText = [] then .ok []
  else extractRowsOfSection sectionText

/-- The `ParsedStatement` of the IDFC strategy (minus `file_path`). -/
structure Result where
  card_last4_digits : List Chars
  masked_card_number : Chars
  name : Chars
  statement_period : Chars
  statement_date : Chars
  payment_due_date : Chars
  total_amount_due : Option ℚ
  minimum_amount_due : Option ℚ
  credit_limit : Option ℚ
  available_credit_limit : Option ℚ
  cash_limit : Option ℚ
  available_cash : Option ℚ
  transactions : List Transaction
deriving DecidableEq, Repr

/-- The text-level pipeline of `parse_idfc_statement`
(src/code/idfc_parser.py, lines 155–226). -/
def parse_statement_text (document_text : Chars) (card_last4s : List Chars) :
    Except PyErr Result := do
  let lines := pySplitlines document_text
  let name := extract_name lines
  let masked_card := extract_masked_card document_text
  let statement_period :=
    match research periodPat1 document_text with
    | some (_, g, _) => g.1 ++ (" - ".toList) ++ g.2
    | none =>
      match research periodPat2 document_text with
      | some (_, g, _) => g.1 ++ (" - ".toList) ++ g.2
      | none => []
  let statement_date :=
    match research statementDatePat document_text with
    | some (_, g, _) => strip_artifacts g
    | none => []
  let payment_due_date :=
    match research paymentDuePat1 document_text with
    | some (_, g, _) => strip_artifacts g
    | none =>
      match research paymentDuePat2 document_text with
      | some (_, g, _) => strip_artifacts g
      | none => []
  let total_amount_due ← extract_summary_amount ("Total Amount Due".toList) document_text
  let minimum_amount_due ← extract_summary_amount ("Minimum Amount Due".toList) document_text
  let credit_limit ← extract_summary_amount ("Credit Limit".toList) document_text
  let available_credit ← extract_summary_amount ("Available Credit Limit".toList) document_text
  let cash_limit ← extract_summary_amount ("Cash Limit".toList) document_text
  let available_cash ← extract_summary_amount ("Available Cash".toList) document_text
  let transactions ← extract_transactions document_text
  pure
    { card_last4_digits := card_last4s
      masked_card_number := masked_card
      name := name
      statement_period := statement_period
      statement_date := statement_date
      payment_due_date := payment_due_date
      total_amount_due := total_amount_due
      minimum_amount_due := minimum_amount_due
      credit_limit := credit_limit
      available_credit_limit := available_credit
      cash_limit := cash_limit
      available_cash := available_cash
      transactions := transactions }

end Idfc

/-! ## RBL strategy pipeline (src/code/rbl_parser.py) -/

namespace Rbl

/-- `_extract_masked_card(text)` (src/code/rbl_parser.py, lines 38–42):
the `(\d{4}[\sXx\*]{4,}\d{2,4})` pattern only. -/
def extract_masked_card (text : Chars) : Chars :=
  match research Idfc.maskedPat1 text with
  | some (_, g, _) => g.filter (fun c => !isPySpace c)
  | none => []

/-- The keyword blocklist of `_extract_name` (line 52). -/
def nameKeywords : List Chars :=
  ["bangalore".toList, "contact".toList, "page".toList, "goods".toList,
    "message".toList, "offer".toList]

/-- `_extract_name(lines)` (src/code/rbl_parser.py, lines 45–56): first
stripped line that is non-empty, has no digit, contains no blocked
keyword (lower-cased), and has at most four words. -/
def extract_name : List Chars → Chars
  | [] => []
  | l :: r =>
    let clean := pyStrip l
    if clean = [] then extract_name r
    else if clean.any isDig then extract_name r
    else if nameKeywords.any (fun k => containsSub (pyLower clean) k) then
      extract_name r
    else if (pySplitWs clean).length ≤ 4 then clean
    else extract_name r

/-- `(\d{2}/\d{2}/\d{4})\s+to\s+(\d{2}/\d{2}/\d{4})(?:\s+(\d{2}/\d{2}/\d{4}))?`
(lines 66–69, no flags). -/
def periodPat : Pat (Chars × Chars × Option Chars) := do
  let a ← pdateSlash
  let _ ← pws1
  let _ ← plit ("to".toList)
  let _ ← pws1
  let b ← pdateSlash
  let c ← popt (do
    let _ ← pws1
    pdateSlash)
  pure (a, b, c)

/-- `Payment\s+Due\s+Date\s*(?:[:\-])?\s*(\d{2}/\d{2}/\d{4})` with
`IGNORECASE` (lines 76–80). -/
def dueDatePat : Pat Chars := do
  let _ ← plitci ("Payment".toList)
  let _ ← pws1
  let _ ← plitci ("Due".toList)
  let _ ← pws1
  let _ ← plitci ("Date".toList)
  let _ ← pws0
  let _ ← pcolonDash
  let _ ← pws0
  pdateSlash

/-- `Total\s+Amount\s+Due\s*(?:[:\-])?\s*([₹rRs\x60.\s]*[\d,]+(?:\.\d{1,2})?)`
with `IGNORECASE` (lines 84–89). -/
def totalAmountPat : Pat Chars := do
  let _ ← plitci ("Total".toList)
  let _ ← pws1
  let _ ← plitci ("Amount".toList)
  let _ ← pws1
  let _ ← plitci ("Due".toList)
  let _ ← pws0
  let _ ← pcolonDash
  let _ ← pws0
  Idfc.pGlyphAmt

/-- `Minimum\s+Amount\s+Due\s*(?:[:\-])?\s*([₹rRs\x60.\s]*[\d,]+(?:\.\d{1,2})?)`
with `IGNORECASE` (lines 93–98). -/
def minimumAmountPat : Pat Chars := do
  let _ ← plitci ("Minimum".toList)
  let _ ← pws1
  let _ ← plitci ("Amount".toList)
  let _ ← pws1
  let _ ← plitci ("Due".toList)
  let _ ← pws0
  let _ ← pcolonDash
  let _ ← pws0
  Idfc.pGlyphAmt

/-- `to\s+\d{2}/\d{2}/\d{4}\s+\d{2}/\d{2}/\d{4}\s+([\d,]+\.\d{2})`
(the total fallback, lines 102–105, no flags). -/
def totalFallbackPat : Pat Chars := do
  let _ ← plit ("to".toList)
  let _ ← pws1
  let _ ← pdateSlash
  let _ ← pws1
  let _ ← pdateSlash
  let _ ← pws1
  pAmt2

/-- The statement-details record of `_extract_statement_details`. -/
structure Details where
  statement_period : Chars
  payment_due_date : Chars
  total_amount_due : Option ℚ
  minimum_amount_due : Option ℚ
deriving DecidableEq, Repr

/-- `_extract_statement_details(text)` (src/code/rbl_parser.py, lines
59–109). -/
def extract_statement_details (text : Chars) : Except PyErr Details := do
  let (statement_period, payment_due0) :=
    match research periodPat text with
    | some (_, (a, b, c), _) =>
      (a ++ (" - ".toList) ++ b, c.getD [])
    | none => ([], [])
  let payment_due_date :=
    if payment_due0 = [] then
      match research dueDatePat text with
      | some (_, d, _) => d
      | none => []
    else payment_due0
  let total0 ←
    match research totalAmountPat text with
    | some (_, g, _) => rblNormalizeAmount (some g) none
    | none => pure none
  let minimum_amount_due ←
    match research minimumAmountPat text with
    | some (_, g, _) => rblNormalizeAmount (some g) none
    | none => pure none
  let total_amount_due ←
    match total0 with
    | some t => pure (some t)
    | none =>
      match research totalFallbackPat text with
      | some (_, g, _) => rblNormalizeAmount (some g) none
      | none => pure none
  pure
    { statement_period := statement_period
      payment_due_date := payment_due_date
      total_amount_due := total_amount_due
      minimum_amount_due := minimum_amount_due }

/-- The `ParsedStatement` of the RBL strategy (minus `file_path`). -/
structure Result where
  card_last4_digits : List Chars
  masked_card_number : Chars
  name : Chars
  statement_period : Chars
  payment_due_date : Chars
  total_amount_due : Option ℚ
  minimum_amount_due : Option ℚ
  transactions : List Transaction
deriving DecidableEq, Repr

/-- The text-level pipeline of `parse_rbl_statement`
(src/code/rbl_parser.py, lines 155–182). -/
def parse_statement_text (document_text : Chars) (card_last4s : List Chars) :
    Except PyErr Result := do
  let lines := pySplitlines document_text
  let name := extract_name lines
  let masked_card := extract_masked_card document_text
  let details ← extract_statement_details document_text
  let transactions ← extract_transactions document_text
  pure
    { card_last4_digits := card_last4s
      masked_card_number := masked_card
      name := name
      statement_period := details.statement_period
      payment_due_date := details.payment_due_date
      total_amount_due := details.total_amount_due
      minimum_amount_due := details.minimum_amount_due
      transactions := transactions }

end Rbl

/-! ## Parser registry (src/parsers/__init__.py) -/

/-- The registered issuer strategies. -/
inductive StrategyKey where
  | axis : StrategyKey
  | idfc : StrategyKey
  | hdfc : StrategyKey
  | icici : StrategyKey
  | rbl : StrategyKey
deriving DecidableEq, Repr

/-- The `PARSERS` dictionary (src/parsers/__init__.py, lines 7–13), as
an association list in insertion order. -/
def PARSERS : List (Chars × StrategyKey) :=
  [("axis".toList, .axis), ("idfc".toList, .idfc), ("hdfc".toList, .hdfc),
    ("icici".toList, .icici), ("rbl".toList, .rbl)]

/-- Dictionary lookup. -/
def lookupKey (k : Chars) : List (Chars × StrategyKey) → Option StrategyKey
  | [] => none
  | (key, v) :: r => if k = key then some v else lookupKey k r

/-- `parse_statement(issuer, path)` (src/parsers/__init__.py, lines
15–20): look the lower-cased issuer key up in `PARSERS`; a `KeyError` is
turned into `ValueError("Unsupported issuer")`.  Invoking the selected
strategy on the file path is PDF I/O (outside the text model), so
dispatch is modelled as returning the selected strategy; no partial
result exists on the error path. -/
def parse_statement (issuer : Chars) : Except PyErr StrategyKey :=
  match lookupKey (pyLower issuer) PARSERS with
  | none => .error .unsupportedIssuer
  | some s => .ok s

/-! ## Supporting lemmas -/

theorem takeWhile_append_of_all {p : Char → Bool} {xs : Chars} (ys : Chars)
    (h : ∀ x ∈ xs, p x = true) :
    (xs ++ ys).takeWhile p = xs ++ ys.takeWhile p := by
  induction xs with
  | nil => simp
  | cons a t ih =>
    have ha : p a = true := h a (by simp)
    simp only [List.cons_append, List.takeWhile_cons, ha, if_true]
    rw [ih (fun x hx => h x (by simp [hx]))]

theorem dropWhile_append_of_all {p : Char → Bool} {xs : Chars} (ys : Chars)
    (h : ∀ x ∈ xs, p x = true) :
    (xs ++ ys).dropWhile p = ys.dropWhile p := by
  induction xs with
  | nil => simp
  | cons a t ih =>
    have ha : p a = true := h a (by simp)
    simp only [List.cons_append, List.dropWhile_cons, ha, if_true]
    exact ih (fun x hx => h x (by simp [hx]))

theorem dropWhile_eq_self_of_all {p : Char → Bool} :
    ∀ cs : Chars, (∀ c ∈ cs, p c = false) → cs.dropWhile p = cs
  | [], _ => rfl
  | c :: t, h => by
    have : p c = false := h c (by simp)
    simp [List.dropWhile_cons, this]

/-- `str.strip()` of a string with no whitespace is itself. -/
theorem pyStrip_eq_self {cs : Chars} (h : ∀ c ∈ cs, isPySpace c = false) :
    pyStrip cs = cs := by
  unfold pyStrip
  rw [dropWhile_eq_self_of_all cs h,
    dropWhile_eq_self_of_all cs.reverse (fun c hc => h c (List.mem_reverse.mp hc)),
    List.reverse_reverse]

/-- A digit is not a whitespace character. -/
theorem isDig_not_pySpace {c : Char} (h : isDig c = true) : isPySpace c = false := by
  cases hs : isPySpace c with
  | false => rfl
  | true =>
    exfalso
    simp only [isPySpace, Bool.or_eq_true, decide_eq_true_eq] at hs
    rcases hs with ((((h1 | h1) | h1) | h1) | h1) | h1 <;>
      (subst h1; exact absurd h (by decide))

/-- A digit is none of `','`, `'.'`, `'-'`. -/
theorem isDig_ne {c : Char} (h : isDig c = true) :
    c ≠ ',' ∧ c ≠ '.' ∧ c ≠ '-' := by
  refine ⟨?_, ?_, ?_⟩ <;> (intro he; subst he; exact absurd h (by decide))

/-- `searchEnd` characterized: a result is the leftmost position whose
whole suffix the matcher accepts. -/
theorem searchEnd_eq_some {α : Type} (f : Chars → Option α) (cs : Chars) :
    ∀ (p : Nat) (a : α), searchEnd f cs = some (p, a) ↔
      (f (cs.drop p) = some a ∧ p ≤ cs.length ∧
        ∀ q, q < p → f (cs.drop q) = none) := by
  induction cs with
  | nil =>
    intro p a
    unfold searchEnd
    cases hf : f [] with
    | none =>
      simp only [hf, Option.map_none']
      constructor
      · intro h; cases h
      · rintro ⟨h1, h2, h3⟩
        have hp : p = 0 := by simpa using h2
        subst hp
        simp [hf] at h1
    | some b =>
      simp only [hf, Option.map_some']
      constructor
      · intro h
        cases h
        exact ⟨hf, Nat.le_refl 0, fun q hq => absurd hq (by omega)⟩
      · rintro ⟨h1, h2, h3⟩
        have hp : p = 0 := by simpa using h2
        subst hp
        simp only [List.drop_nil] at h1
        rw [hf] at h1
        cases h1
        rfl
  | cons c t ih =>
    intro p a
    unfold searchEnd
    cases hf : f (c :: t) with
    | some b =>
      constructor
      · intro h
        cases h
        exact ⟨hf, by simp, fun q hq => absurd hq (by omega)⟩
      · rintro ⟨h1, h2, h3⟩
        cases p with
        | zero =>
          simp only [List.drop] at h1
          rw [hf] at h1
          cases h1
          rfl
        | succ p' =>
          have h0 : f ((c :: t).drop 0) = none := h3 0 (by omega)
          simp only [List.drop_zero] at h0
          rw [hf] at h0
          cases h0
    | none =>
      constructor
      · intro h
        cases hse : searchEnd f t with
        | none => rw [hse] at h; cases h
        | some pa =>
          rw [hse] at h
          obtain ⟨p0, a0⟩ := pa
          cases h
          obtain ⟨h1, h2, h3⟩ := (ih p0 a0).mp hse
          refine ⟨by simpa using h1, by simp; omega, ?_⟩
          intro q hq
          cases q with
          | zero => simpa using hf
          | succ q' => simpa using h3 q' (by omega)
      · rintro ⟨h1, h2, h3⟩
        cases p with
        | zero =>
          simp only [List.drop] at h1
          rw [hf] at h1
          cases h1
        | succ p' =>
          have hrec := (ih p' a).mpr
            ⟨by simpa using h1, by simp at h2; omega,
              fun q hq => by simpa using h3 (q + 1) (by omega)⟩
          rw [hrec]
          rfl
/-- A skipped row (`step sp = ok none`) contributes nothing: the loop
result with that span inserted equals the result without it. -/
theorem runRows_skip (step : Nat × Nat → Except PyErr (Option Transaction))
    (pre : List (Nat × Nat)) (sp : Nat × Nat) (post : List (Nat × Nat))
    (h : step sp = .ok none) :
    runRows step (pre ++ sp :: post) = runRows step (pre ++ post) := by
  induction pre with
  | nil =>
    simp only [List.nil_append, runRows, h]
    cases hr : runRows step post <;> simp [Except.bind, bind, hr, pure, Except.pure]
  | cons x pre ih =>
    simp only [List.cons_append, runRows, List.append_eq, ih]

/-- When no iteration raises, the loop is exactly `filterMap` of the
per-span results, in span order. -/
theorem runRows_eq_filterMap (step : Nat × Nat → Except PyErr (Option Transaction))
    (step? : Nat × Nat → Option Transaction) (spans : List (Nat × Nat))
    (h : ∀ sp ∈ spans, step sp = .ok (step? sp)) :
    runRows step spans = .ok (spans.filterMap step?) := by
  induction spans with
  | nil => rfl
  | cons sp r ih =>
    simp only [runRows, h sp (by simp)]
    rw [ih (fun s hs => h s (by simp [hs]))]
    cases hs : step? sp <;>
      simp [Except.bind, bind, List.filterMap_cons, hs, pure, Except.pure]
/-- A digit is neither `'+'` nor a sign head. -/
theorem isDig_ne_sign {c : Char} (h : isDig c = true) : c ≠ '-' ∧ c ≠ '+' := by
  refine ⟨?_, ?_⟩ <;> (intro he; subst he; exact absurd h (by decide))

theorem takeWhile_eq_self_of_all {p : Char → Bool} {l : Chars}
    (h : ∀ c ∈ l, p c = true) : l.takeWhile p = l := by
  have := @takeWhile_append_of_all p l [] h
  simpa using this

theorem dropWhile_eq_nil_of_all {p : Char → Bool} {l : Chars}
    (h : ∀ c ∈ l, p c = true) : l.dropWhile p = [] := by
  have := @dropWhile_append_of_all p l [] h
  simpa using this

/-- `Decimal` succeeds on every string of the form
`minus ++ digits ++ fraction` with an optional leading `'-'`, digits,
and an optional `'.'`-led all-digit fraction, provided a digit exists
somewhere. -/
theorem pyDecimal_isSome_of_shape (minus ds frac : Chars)
    (hm : minus = [] ∨ minus = ['-'])
    (hds : ∀ c ∈ ds, isDig c = true)
    (hf : frac = [] ∨ ∃ fd, frac = '.' :: fd ∧ ∀ c ∈ fd, isDig c = true)
    (hne : ds ≠ [] ∨ ∃ fd, frac = '.' :: fd ∧ fd ≠ []) :
    (pyDecimal (minus ++ ds ++ frac)).isSome = true := by
  have hstrip : pyStrip (minus ++ ds ++ frac) = minus ++ ds ++ frac := by
    apply pyStrip_eq_self
    intro c hc
    simp only [List.append_assoc, List.mem_append] at hc
    rcases hc with hc | hc | hc
    · rcases hm with h | h <;> subst h
      · simp at hc
      · simp at hc; subst hc; decide
    · exact isDig_not_pySpace (hds c hc)
    · rcases hf with h | ⟨fd, hfd, hdig⟩
      · subst h; simp at hc
      · subst hfd
        rcases List.mem_cons.mp hc with h | h
        · subst h; decide
        · exact isDig_not_pySpace (hdig c h)
  -- the tail after the optional sign
  have hs1 : (if (minus ++ ds ++ frac).head? = some '-' ∨
        (minus ++ ds ++ frac).head? = some '+' then (minus ++ ds ++ frac).tail
      else minus ++ ds ++ frac) = ds ++ frac := by
    rcases hm with h | h <;> subst h
    · simp only [List.nil_append]
      rw [if_neg]
      intro hsig
      rcases hne with hds' | ⟨fd, hfd, _⟩
      · cases hd : ds with
        | nil => exact hds' hd
        | cons d dt =>
          subst hd
          have hdig := hds d (by simp)
          rcases hsig with hsig | hsig <;>
            (simp at hsig
             first
               | exact absurd hsig (isDig_ne_sign hdig).1
               | exact absurd hsig (isDig_ne_sign hdig).2)
      · subst hfd
        cases hd : ds with
        | nil =>
          subst hd
          rcases hsig with hsig | hsig <;> simp at hsig
        | cons d dt =>
          subst hd
          have hdig := hds d (by simp)
          rcases hsig with hsig | hsig <;>
            (simp at hsig
             first
               | exact absurd hsig (isDig_ne_sign hdig).1
               | exact absurd hsig (isDig_ne_sign hdig).2)
    · simp
  have hip : (ds ++ frac).takeWhile isDig = ds ++ frac.takeWhile isDig :=
    takeWhile_append_of_all frac hds
  have hrest : (ds ++ frac).dropWhile isDig = frac.dropWhile isDig :=
    dropWhile_append_of_all frac hds
  simp only [pyDecimal]
  rw [hstrip, hs1, hip, hrest]
  rcases hf with h | ⟨fd, hfd, hdig⟩
  · subst h
    have hds' : ds ≠ [] := by
      rcases hne with h | ⟨fd, hfd, _⟩
      · exact h
      · cases hfd
    simp only [List.takeWhile_nil, List.dropWhile_nil, List.append_nil]
    rw [if_neg hds']
    simp
  · subst hfd
    have hdot : isDig '.' = false := by decide
    have htw : ('.' :: fd).takeWhile isDig = [] := by
      simp [List.takeWhile_cons, hdot]
    have hdw : ('.' :: fd).dropWhile isDig = '.' :: fd := by
      simp [List.dropWhile_cons, hdot]
    rw [htw, hdw]
    have hfd2 : fd.dropWhile isDig = [] := dropWhile_eq_nil_of_all hdig
    have hfd3 : fd.takeWhile isDig = fd := takeWhile_eq_self_of_all hdig
    simp only [List.append_nil, if_true, hfd2, hfd3, ne_eq, not_true_eq_false,
      if_false]
    rcases hne with h | ⟨fd', hfd', hfd'ne⟩
    · rw [if_neg (by intro hand; exact h hand.1)]
      simp
    · have : fd' = fd := by cases hfd'; rfl
      subst this
      rw [if_neg (by intro hand; exact hfd'ne hand.2)]
      simp
/-- Every amount matched by the Axis/HDFC/ICICI trailing pattern ends in
a decimal point followed by exactly two digits, after an optional minus
and a non-empty digits-and-separators run. -/
theorem trailDecimalAmtAt_shape (flags : List Chars) (cs amt : Chars)
    (flag : Option Chars)
    (h : trailDecimalAmtAt flags cs = some (amt, flag)) :
    ∃ minus run a b, amt = minus ++ run ++ ['.', a, b] ∧
      (minus = [] ∨ minus = ['-']) ∧ run ≠ [] ∧
      (∀ c ∈ run, isDigitComma c = true) ∧ isDig a = true ∧ isDig b = true := by
  simp only [trailDecimalAmtAt] at h
  set minus : Chars := if cs.head? = some '-' then ['-'] else [] with hminus
  set cs1 := if cs.head? = some '-' then cs.tail else cs with hcs1
  set run := cs1.takeWhile isDigitComma with hrun
  set rest := cs1.dropWhile isDigitComma with hrest
  by_cases hr : run = []
  · rw [if_pos hr] at h; cases h
  · rw [if_neg hr] at h
    match hre : rest with
    | [] => cases h
    | [d] => cases h
    | [d, a] => cases h
    | d :: a :: b :: tail =>
      have h2 : (if d = '.' ∧ isDig a = true ∧ isDig b = true then
            (if List.dropWhile isPySpace tail = [] then
              some (minus ++ run ++ ['.', a, b], (none : Option Chars))
            else if (flags.any fun fl =>
                decide (List.dropWhile isPySpace tail = fl)) = true then
              some (minus ++ run ++ ['.', a, b],
                some (List.dropWhile isPySpace tail))
            else none)
          else none) = some (amt, flag) := h
      clear h
      by_cases hc : d = '.' ∧ isDig a = true ∧ isDig b = true
      · rw [if_pos hc] at h2
        obtain ⟨hd, ha, hb⟩ := hc
        refine ⟨minus, run, a, b, ?_, ?_, hr, ?_, ha, hb⟩
        · by_cases hw : tail.dropWhile isPySpace = []
          · rw [if_pos hw] at h2
            cases h2
            rfl
          · rw [if_neg hw] at h2
            by_cases hfl : (flags.any fun fl =>
                decide (List.dropWhile isPySpace tail = fl)) = true
            · rw [if_pos hfl] at h2
              cases h2
              rfl
            · rw [if_neg hfl] at h2
              cases h2
        · rw [hminus]
          by_cases hh : cs.head? = some '-'
          · rw [if_pos hh]; right; rfl
          · rw [if_neg hh]; left; rfl
        · intro c hcm
          exact List.mem_takeWhile_imp (hrun ▸ hcm)
      · rw [if_neg hc] at h2
        cases h2

/-- The comma-stripped amount group of the trailing pattern always
parses as a `Decimal`. -/
theorem trailDecimalAmtAt_parses (flags : List Chars) (cs amt : Chars)
    (flag : Option Chars)
    (h : trailDecimalAmtAt flags cs = some (amt, flag)) :
    (pyDecimal (amt.filter (fun c => c ≠ ','))).isSome = true := by
  obtain ⟨minus, run, a, b, hamt, hm, hr, hdc, ha, hb⟩ :=
    trailDecimalAmtAt_shape flags cs amt flag h
  subst hamt
  have hfm : minus.filter (fun c => c ≠ ',') = minus := by
    rcases hm with h' | h' <;> subst h' <;> rfl
  have hfrun : ∀ c ∈ run.filter (fun c => c ≠ ','), isDig c = true := by
    intro c hc
    have hmem := List.mem_filter.mp hc
    have hdc' := hdc c hmem.1
    simp only [isDigitComma, Bool.or_eq_true, decide_eq_true_eq] at hdc'
    rcases hdc' with h' | h'
    · exact h'
    · exact absurd h' (by simpa using hmem.2)
  have hftail : (['.', a, b] : Chars).filter (fun c => c ≠ ',') = ['.', a, b] := by
    have ha' := (isDig_ne ha).1
    have hb' := (isDig_ne hb).1
    simp [List.filter, ha', hb']
  rw [List.filter_append, List.filter_append, hfm, hftail]
  exact pyDecimal_isSome_of_shape minus (run.filter (fun c => c ≠ ',')) ['.', a, b]
    hm hfrun
    (Or.inr ⟨[a, b], rfl, by
      intro c hc
      rcases List.mem_cons.mp hc with h' | h'
      · subst h'; exact ha
      · simp at h'; subst h'; exact hb⟩)
    (Or.inr ⟨[a, b], rfl, by simp⟩)
/-- Evaluation of the Axis normalizer when the `Decimal` parse is known. -/
theorem axisNormalizeAmount_eq (amt : Chars) (sign : Option Chars) (v : ℚ)
    (hv : pyDecimal (amt.filter (fun c => c ≠ ',')) = some v) :
    axisNormalizeAmount (some amt) sign =
      .ok (if axisCrSign sign then -v else v) := by
  simp only [axisNormalizeAmount]
  rw [hv]
  by_cases h : axisCrSign sign <;> simp [h]

/-- The Axis normalizer never raises on a matched trailing amount. -/
theorem axisNormalizeAmount_ok_of_match (flags : List Chars) (cs amt : Chars)
    (flag fl2 : Option Chars)
    (h : trailDecimalAmtAt flags cs = some (amt, flag)) :
    ∃ q, axisNormalizeAmount (some amt) fl2 = .ok q := by
  have hp := trailDecimalAmtAt_parses flags cs amt flag h
  obtain ⟨v, hv⟩ := Option.isSome_iff_exists.mp hp
  exact ⟨_, axisNormalizeAmount_eq amt fl2 v hv⟩

/-- `Axis.txOfRow` never raises; its value on a matched row is explicit. -/
theorem axis_txOfRow_eq (date body : Chars) (p : Nat) (amt : Chars)
    (flag : Option Chars) (v : ℚ)
    (hs : searchEnd axisAmtAt body = some (p, amt, flag))
    (hv : pyDecimal (amt.filter (fun c => c ≠ ',')) = some v) :
    Axis.txOfRow date body =
      .ok (some ⟨date, pyStrip (body.take p),
        if axisCrSign flag then -v else v,
        if (if axisCrSign flag then -v else v) < 0 then TxType.credit
        else TxType.debit⟩) := by
  simp only [Axis.txOfRow, hs, axisNormalizeAmount_eq amt flag v hv]
  rfl

/-- `Axis.txOfRow` never raises. -/
theorem axis_txOfRow_ok (date body : Chars) :
    ∃ t, Axis.txOfRow date body = .ok t := by
  cases hs : searchEnd axisAmtAt body with
  | none => exact ⟨none, by simp [Axis.txOfRow, hs]⟩
  | some pa =>
    obtain ⟨p, amt, flag⟩ := pa
    have hf : axisAmtAt (body.drop p) = some (amt, flag) :=
      ((searchEnd_eq_some axisAmtAt body p (amt, flag)).mp hs).1
    obtain ⟨v, hv⟩ :=
      Option.isSome_iff_exists.mp (trailDecimalAmtAt_parses _ _ amt flag hf)
    exact ⟨_, axis_txOfRow_eq date body p amt flag v hs hv⟩

/-- `Hdfc.txOfRow` never raises; its value on a matched row is explicit. -/
theorem hdfc_txOfRow_eq (date rest : Chars) (p : Nat) (amt : Chars)
    (creditFlag : Option Chars) (v : ℚ)
    (hs : searchEnd hdfcAmtAt rest = some (p, amt, creditFlag))
    (hv : pyDecimal (amt.filter (fun c => c ≠ ',')) = some v) :
    Hdfc.txOfRow date rest =
      .ok (some ⟨date, pyStrip (rest.take p), v,
        if creditFlag.isSome then TxType.credit else TxType.debit⟩) := by
  simp only [Hdfc.txOfRow, hs, hv]

/-- `Hdfc.txOfRow` never raises. -/
theorem hdfc_txOfRow_ok (date rest : Chars) :
    ∃ t, Hdfc.txOfRow date rest = .ok t := by
  cases hs : searchEnd hdfcAmtAt rest with
  | none => exact ⟨none, by simp [Hdfc.txOfRow, hs]⟩
  | some pa =>
    obtain ⟨p, amt, flag⟩ := pa
    have hf : hdfcAmtAt (rest.drop p) = some (amt, flag) :=
      ((searchEnd_eq_some hdfcAmtAt rest p (amt, flag)).mp hs).1
    obtain ⟨v, hv⟩ :=
      Option.isSome_iff_exists.mp (trailDecimalAmtAt_parses _ _ amt flag hf)
    exact ⟨_, hdfc_txOfRow_eq date rest p amt flag v hs hv⟩
/-- Anchor indices are strictly increasing (document order). -/
theorem anchorIdxs_sorted (isRow : Chars → Option Chars) :
    ∀ ls : List Chars, List.Pairwise (· < ·) (anchorIdxs isRow ls)
  | [] => List.Pairwise.nil
  | l :: ls => by
    have ih := anchorIdxs_sorted isRow ls
    have hmap : List.Pairwise (· < ·) ((anchorIdxs isRow ls).map (· + 1)) := by
      rw [List.pairwise_map]
      exact ih.imp (fun h => by omega)
    unfold anchorIdxs
    by_cases h : (isRow l).isSome
    · rw [if_pos h]
      refine List.Pairwise.cons ?_ hmap
      intro j hj
      obtain ⟨i, _, hij⟩ := List.mem_map.mp hj
      omega
    · rw [if_neg h]
      exact hmap

/-- Anchor membership: exactly the indices of lines where the row
pattern matches. -/
theorem mem_anchorIdxs (isRow : Chars → Option Chars) :
    ∀ (ls : List Chars) (i : Nat),
      i ∈ anchorIdxs isRow ls ↔
        (i < ls.length ∧ (isRow (ls.getD i [])).isSome)
  | [], i => by simp [anchorIdxs]
  | l :: ls, i => by
    unfold anchorIdxs
    by_cases h : (isRow l).isSome
    · rw [if_pos h]
      cases i with
      | zero => simp [h]
      | succ j =>
        simp only [List.mem_cons, List.mem_map]
        constructor
        · rintro (hj | ⟨k, hk, hkj⟩)
          · exact absurd hj (by omega)
          · have hkj' : k = j := by omega
            rw [← hkj']
            have := (mem_anchorIdxs isRow ls k).mp hk
            simpa [List.getD_cons_succ] using this
        · rintro ⟨hlen, hrow⟩
          refine Or.inr ⟨j, ?_, rfl⟩
          exact (mem_anchorIdxs isRow ls j).mpr
            ⟨by simpa using hlen, by simpa [List.getD_cons_succ] using hrow⟩
    · rw [if_neg h]
      cases i with
      | zero => simp [h]
      | succ j =>
        simp only [List.mem_map]
        constructor
        · rintro ⟨k, hk, hkj⟩
          have hkj' : k = j := by omega
          rw [← hkj']
          have := (mem_anchorIdxs isRow ls k).mp hk
          simpa [List.getD_cons_succ] using this
        · rintro ⟨hlen, hrow⟩
          refine ⟨j, ?_, rfl⟩
          exact (mem_anchorIdxs isRow ls j).mpr
            ⟨by simpa using hlen, by simpa [List.getD_cons_succ] using hrow⟩

/-- The span starts are exactly the anchors, in order. -/
theorem rowSpans_map_fst : ∀ (as : List Nat) (len : Nat),
    (rowSpans as len).map Prod.fst = as
  | [], _ => rfl
  | [a], len => rfl
  | a :: b :: r, len => by
    simp only [rowSpans, List.map_cons]
    rw [show (rowSpans (b :: r) len).map Prod.fst = b :: r from
      rowSpans_map_fst (b :: r) len]

/-- Adjacent spans are consecutive: each span ends where the next
starts. -/
theorem rowSpans_chain : ∀ (as : List Nat) (len : Nat),
    List.Chain' (fun s t : Nat × Nat => s.2 = t.1) (rowSpans as len)
  | [], _ => List.chain'_nil
  | [a], len => List.chain'_singleton _
  | a :: b :: r, len => by
    cases r with
    | nil => simp [rowSpans, List.chain'_cons]
    | cons c r' =>
      have ih := rowSpans_chain (b :: c :: r') len
      simp only [rowSpans] at ih ⊢
      exact List.Chain'.cons rfl ih

/-- The last span ends at the section's end. -/
theorem rowSpans_getLast : ∀ (as : List Nat) (len : Nat) (sp : Nat × Nat),
    (rowSpans as len).getLast? = some sp → sp.2 = len
  | [], _, sp => by simp [rowSpans]
  | [a], len, sp => by
    intro h
    simp only [rowSpans, List.getLast?_singleton, Option.some.injEq] at h
    rw [← h]
  | a :: b :: r, len, sp => by
    intro h
    apply rowSpans_getLast (b :: r) len sp
    cases r with
    | nil => simpa [rowSpans, List.getLast?_cons_cons] using h
    | cons c r' => simpa [rowSpans, List.getLast?_cons_cons] using h
/-- Spans are pairwise disjoint (each ends no later than any later one
starts). -/
theorem rowSpans_pairwise : ∀ (as : List Nat) (len : Nat),
    List.Pairwise (· < ·) as →
    List.Pairwise (fun s t : Nat × Nat => s.2 ≤ t.1) (rowSpans as len)
  | [], _, _ => List.Pairwise.nil
  | [a], len, _ => List.pairwise_singleton _ _
  | a :: b :: r, len, hs => by
    simp only [rowSpans]
    refine List.Pairwise.cons ?_ (rowSpans_pairwise (b :: r) len hs.tail)
    intro t ht
    have hmem : t.1 ∈ b :: r := by
      have := rowSpans_map_fst (b :: r) len
      rw [← this]
      exact List.mem_map.mpr ⟨t, ht, rfl⟩
    rcases List.mem_cons.mp hmem with h1 | h1
    · omega
    · have hlt := (List.pairwise_cons.mp hs.tail).1 t.1 h1
      omega

/-- Every span is non-empty when the anchors are sorted and inside the
section. -/
theorem rowSpans_pos : ∀ (as : List Nat) (len : Nat),
    List.Pairwise (· < ·) as → (∀ a ∈ as, a < len) →
    ∀ sp ∈ rowSpans as len, sp.1 < sp.2
  | [], _, _, _ => by simp [rowSpans]
  | [a], len, _, hl => by
    simp only [rowSpans, List.mem_singleton]
    rintro sp rfl
    exact hl a (by simp)
  | a :: b :: r, len, hs, hl => by
    simp only [rowSpans, List.mem_cons]
    rintro sp (rfl | hsp)
    · exact (List.pairwise_cons.mp hs).1 b (by simp)
    · exact rowSpans_pos (b :: r) len hs.tail
        (fun x hx => hl x (by simp [List.mem_cons.mp hx])) sp hsp
/-- A sign whose lower-casing is `"cr"` passes the Axis/ICICI credit
test. -/
theorem axisCrSign_of_lower {sign : Chars} (h : pyLower sign = "cr".toList) :
    axisCrSign (some sign) = true := by
  have hne : sign.isEmpty = false := by
    cases sign with
    | nil => simp [pyLower] at h
    | cons c t => rfl
  simp [axisCrSign, hne, h]

/-- A sign whose lower-casing is `"cr"` or `"credit"` passes the
IDFC/RBL credit test. -/
theorem idfcCrSign_of_lower {sign : Chars}
    (h : pyLower sign = "cr".toList ∨ pyLower sign = "credit".toList) :
    idfcCrSign (some sign) = true := by
  have hne : sign.isEmpty = false := by
    cases sign with
    | nil => rcases h with h | h <;> simp [pyLower] at h
    | cons c t => rfl
  rcases h with h | h <;> simp [idfcCrSign, hne, h]

/-- With a passing credit sign, the Axis normalizer is exactly the
negation of the unsigned normalization. -/
theorem axis_neg_eq (raw : Option Chars) (sign : Chars)
    (h : axisCrSign (some sign) = true) :
    axisNormalizeAmount raw (some sign) =
      Except.map Neg.neg (axisNormalizeAmount raw none) := by
  cases raw with
  | none => rfl
  | some r =>
    simp only [axisNormalizeAmount]
    cases hd : pyDecimal (r.filter (fun c => c ≠ ',')) with
    | none => rfl
    | some v =>
      simp only [hd, h, if_true]
      rfl

/-- With a passing credit sign, the ICICI normalizer is exactly the
negation of the unsigned normalization. -/
theorem icici_neg_eq (raw : Option Chars) (sign : Chars)
    (h : axisCrSign (some sign) = true) :
    iciciNormalizeAmount raw (some sign) =
      Except.map (Option.map Neg.neg) (iciciNormalizeAmount raw none) := by
  unfold iciciNormalizeAmount
  by_cases hf : pyFalsy raw
  · simp [hf, Except.map]
  · simp only [hf, Bool.false_eq_true, if_false]
    rw [axis_neg_eq raw sign h]
    cases axisNormalizeAmount raw none <;> rfl

/-- With a passing credit sign, the IDFC normalizer is exactly the
negation of the unsigned normalization. -/
theorem idfc_neg_eq (raw : Option Chars) (sign : Chars)
    (h : idfcCrSign (some sign) = true) :
    idfcNormalizeAmount raw (some sign) =
      Except.map (Option.map Neg.neg) (idfcNormalizeAmount raw none) := by
  unfold idfcNormalizeAmount
  by_cases hf : pyFalsy raw
  · simp [hf, Except.map]
  · simp only [hf, Bool.false_eq_true, if_false]
    by_cases hc : ((raw.getD []).filter (fun c => isDig c || c = '.' || c = '-')).isEmpty
    · simp [hc, Except.map]
    · simp only [hc, Bool.false_eq_true, if_false]
      cases hd : pyDecimal ((raw.getD []).filter (fun c => isDig c || c = '.' || c = '-')) with
      | none => rfl
      | some v =>
        simp only [hd, h, if_true]
        rfl
/-! ## Claims -/

set_option maxRecDepth 100000 in
/-- C1: the claim states that in every strategy `type == credit` iff
`amount < 0`.  The HDFC strategy violates it: `extract_transactions`
never negates the amount and derives the type from the `Cr` flag, so a
credit row is emitted with type `credit` and a positive amount.  This
theorem evaluates the code at the failing input. -/
theorem C1_hdfc_credit_type_with_positive_amount :
    Hdfc.extract_transactions ("01/01/2024 REFUND 500.00 Cr".toList) =
      .ok [⟨"01/01/2024".toList, "REFUND".toList, 500, TxType.credit⟩] ∧
    ¬ ((500 : ℚ) < 0) := by
  exact ⟨by decide, by decide⟩

/-- C2 counterexample: `"credit"` belongs to the documented credit
vocabulary, but the Axis normalizer compares the lowered sign with
`"cr"` only, so `Normalize("500.00", "credit")` is not the negation of
`Normalize("500.00", None)`. -/
theorem C2_counterexample :
    axisNormalizeAmount (some ("500.00".toList)) (some ("credit".toList)) ≠
      Except.map Neg.neg (axisNormalizeAmount (some ("500.00".toList)) none) := by
  decide

/-- C2 amended: for every raw input, normalizing with a sign flag that
lower-cases to `"cr"` is exactly the negation of normalizing with no
flag, in the Axis, ICICI, IDFC and RBL normalizers; IDFC and RBL
additionally negate for `"credit"`.  (Axis and ICICI ignore `"credit"`,
and the HDFC strategy has no sign handling at all — see C1.) -/
theorem C2_amended : ∀ (raw : Option Chars) (sign : Chars),
    (pyLower sign = "cr".toList →
      axisNormalizeAmount raw (some sign) =
        Except.map Neg.neg (axisNormalizeAmount raw none) ∧
      iciciNormalizeAmount raw (some sign) =
        Except.map (Option.map Neg.neg) (iciciNormalizeAmount raw none) ∧
      idfcNormalizeAmount raw (some sign) =
        Except.map (Option.map Neg.neg) (idfcNormalizeAmount raw none) ∧
      rblNormalizeAmount raw (some sign) =
        Except.map (Option.map Neg.neg) (rblNormalizeAmount raw none)) ∧
    ((pyLower sign = "cr".toList ∨ pyLower sign = "credit".toList) →
      idfcNormalizeAmount raw (some sign) =
        Except.map (Option.map Neg.neg) (idfcNormalizeAmount raw none) ∧
      rblNormalizeAmount raw (some sign) =
        Except.map (Option.map Neg.neg) (rblNormalizeAmount raw none)) := by
  intro raw sign
  constructor
  · intro h
    have ha := axisCrSign_of_lower h
    have hi := idfcCrSign_of_lower (Or.inl h)
    exact ⟨axis_neg_eq raw sign ha, icici_neg_eq raw sign ha,
      idfc_neg_eq raw sign hi, idfc_neg_eq raw sign hi⟩
  · intro h
    have hi := idfcCrSign_of_lower h
    exact ⟨idfc_neg_eq raw sign hi, idfc_neg_eq raw sign hi⟩

/-- Witness for C2: the amended claim applied at `raw = "1,249.00"` with
the flags `"Cr"` and `"CREDIT"`. -/
theorem C2_amended_witness :
    pyLower ("Cr".toList) = "cr".toList ∧
    pyLower ("CREDIT".toList) = "credit".toList ∧
    axisNormalizeAmount (some ("1,249.00".toList)) (some ("Cr".toList)) =
      Except.map Neg.neg (axisNormalizeAmount (some ("1,249.00".toList)) none) ∧
    rblNormalizeAmount (some ("1,249.00".toList)) (some ("CREDIT".toList)) =
      Except.map (Option.map Neg.neg)
        (rblNormalizeAmount (some ("1,249.00".toList)) none) :=
  ⟨by decide, by decide,
    ((C2_amended (some ("1,249.00".toList)) ("Cr".toList)).1 (by decide)).1,
    ((C2_amended (some ("1,249.00".toList)) ("CREDIT".toList)).2
      (Or.inr (by decide))).2⟩

/-- C8 counterexample: the Axis normalizer raises on absent and on empty
input instead of returning an absent result. -/
theorem C8_counterexample :
    axisNormalizeAmount (some []) none = .error .invalidOperation ∧
    axisNormalizeAmount none none = .error .attributeError := by
  exact ⟨by decide, by decide⟩

/-- C8 amended: the ICICI, IDFC and RBL normalizers return an absent
result — not zero and not an error — on absent or empty raw input, for
every sign; the Axis normalizer instead raises (see the
counterexample). -/
theorem C8_amended : ∀ sign : Option Chars,
    iciciNormalizeAmount none sign = .ok none ∧
    iciciNormalizeAmount (some []) sign = .ok none ∧
    idfcNormalizeAmount none sign = .ok none ∧
    idfcNormalizeAmount (some []) sign = .ok none ∧
    rblNormalizeAmount none sign = .ok none ∧
    rblNormalizeAmount (some []) sign = .ok none := by
  intro sign
  exact ⟨rfl, rfl, rfl, rfl, rfl, rfl⟩
/-- A key misses in a lookup exactly when it is not among the stored
keys. -/
theorem lookupKey_eq_none_iff (k : Chars) :
    ∀ l : List (Chars × StrategyKey),
      lookupKey k l = none ↔ k ∉ l.map Prod.fst
  | [] => by
    constructor
    · intro _ hmem
      cases hmem
    · intro _
      rfl
  | (key, v) :: r => by
    constructor
    · intro h hmem
      by_cases hk : k = key
      · rw [lookupKey, if_pos hk] at h
        cases h
      · rw [lookupKey, if_neg hk] at h
        rcases List.mem_cons.mp hmem with he | ht
        · exact hk he
        · exact ((lookupKey_eq_none_iff k r).mp h) ht
    · intro h
      have hk : k ≠ key := fun he => h (List.mem_cons.mpr (Or.inl he))
      rw [lookupKey, if_neg hk]
      exact (lookupKey_eq_none_iff k r).mpr
        (fun ht => h (List.mem_cons.mpr (Or.inr ht)))

theorem parse_statement_eq (issuer : Chars) :
    parse_statement issuer =
      match lookupKey (pyLower issuer) PARSERS with
      | none => .error .unsupportedIssuer
      | some s => .ok s := rfl

/-- C9: registry dispatch lower-cases the issuer key; an unregistered
lower-cased key yields exactly the unsupported-issuer error (with no
partial result possible in the `Except`), a registered one dispatches to
its strategy, dispatch depends only on the lower-cased key, and the
unsupported-issuer condition is distinct from every extraction
failure. -/
theorem C9_registry_dispatch :
    (∀ issuer : Chars, parse_statement issuer = .error .unsupportedIssuer ↔
      pyLower issuer ∉ PARSERS.map Prod.fst) ∧
    (∀ (issuer : Chars) (k : StrategyKey), (pyLower issuer, k) ∈ PARSERS →
      parse_statement issuer = .ok k) ∧
    (∀ i1 i2 : Chars, pyLower i1 = pyLower i2 →
      parse_statement i1 = parse_statement i2) ∧
    PyErr.unsupportedIssuer ≠ PyErr.invalidOperation ∧
    PyErr.unsupportedIssuer ≠ PyErr.attributeError ∧
    PyErr.unsupportedIssuer ≠ PyErr.fileNotFound := by
  refine ⟨?_, ?_, ?_, by decide, by decide, by decide⟩
  · intro issuer
    cases hlk : lookupKey (pyLower issuer) PARSERS with
    | none =>
      simp only [parse_statement_eq, hlk]
      constructor
      · intro _
        exact (lookupKey_eq_none_iff (pyLower issuer) PARSERS).mp hlk
      · intro _
        trivial
    | some s =>
      simp only [parse_statement_eq, hlk]
      constructor
      · intro h
        cases h
      · intro h
        rw [(lookupKey_eq_none_iff (pyLower issuer) PARSERS).mpr h] at hlk
        cases hlk
  · intro issuer k h
    simp only [PARSERS, List.mem_cons, List.not_mem_nil, or_false] at h
    rcases h with h | h | h | h | h
    · have h1 : pyLower issuer = ("axis".toList) := congrArg Prod.fst h
      have h2 : k = StrategyKey.axis := congrArg Prod.snd h
      rw [parse_statement_eq, h1, h2]
      decide
    · have h1 : pyLower issuer = ("idfc".toList) := congrArg Prod.fst h
      have h2 : k = StrategyKey.idfc := congrArg Prod.snd h
      rw [parse_statement_eq, h1, h2]
      decide
    · have h1 : pyLower issuer = ("hdfc".toList) := congrArg Prod.fst h
      have h2 : k = StrategyKey.hdfc := congrArg Prod.snd h
      rw [parse_statement_eq, h1, h2]
      decide
    · have h1 : pyLower issuer = ("icici".toList) := congrArg Prod.fst h
      have h2 : k = StrategyKey.icici := congrArg Prod.snd h
      rw [parse_statement_eq, h1, h2]
      decide
    · have h1 : pyLower issuer = ("rbl".toList) := congrArg Prod.fst h
      have h2 : k = StrategyKey.rbl := congrArg Prod.snd h
      rw [parse_statement_eq, h1, h2]
      decide
  · intro i1 i2 h
    rw [parse_statement_eq, parse_statement_eq, h]

/-- Witness for C9: dispatch at the concrete keys `"AXIS"` (registered,
mixed case) and `"unknownbank"` (unregistered). -/
theorem C9_registry_dispatch_witness :
    parse_statement ("AXIS".toList) = .ok StrategyKey.axis ∧
    parse_statement ("unknownbank".toList) = .error .unsupportedIssuer :=
  ⟨C9_registry_dispatch.2.1 ("AXIS".toList) StrategyKey.axis (by decide),
    (C9_registry_dispatch.1 ("unknownbank".toList)).mpr (by decide)⟩
theorem if_contains_find (hay pat : Chars) :
    (if containsSub hay pat then findSub pat hay else none) = findSub pat hay := by
  unfold containsSub
  cases h : findSub pat hay with
  | none => simp [h]
  | some v => simp [h]

theorem foldl_min_map_add (s : Nat) :
    ∀ (as : List Nat) (a : Nat),
      (as.map (fun x => x + s)).foldl min (a + s) = as.foldl min a + s
  | [], a => rfl
  | b :: bs, a => by
    simp only [List.map_cons, List.foldl_cons]
    rw [min_add_add_right a b s]
    exact foldl_min_map_add s bs (min a b)

theorem min?_map_add (l : List Nat) (s : Nat) :
    (l.map (fun x => x + s)).min? = l.min?.map (fun x => x + s) := by
  cases l with
  | nil => rfl
  | cons a as =>
    simp only [List.map_cons, List.min?_cons']
    exact congrArg some (foldl_min_map_add s as a)

theorem findSubFrom_zero (text m : Chars) :
    findSubFrom text m 0 = findSub m text := by
  unfold findSubFrom
  rw [List.drop_zero]
  cases h : findSub m text with
  | none => rfl
  | some v => simp [h]

theorem icici_section_eq_spec (text : Chars) :
    iciciTransactionsSection text =
      specSectionBound text ("Account Summary".toList) iciciEndMarkers := by
  unfold iciciTransactionsSection specSectionBound
  have hguard : ∀ sec : Chars,
      iciciEndMarkers.filterMap
          (fun marker => if containsSub sec marker then findSub marker sec else none)
        = iciciEndMarkers.filterMap (fun marker => findSub marker sec) :=
    fun sec => congrArg (fun f => List.filterMap f iciciEndMarkers)
      (funext fun m => if_contains_find sec m)
  cases hs : findSub ("Account Summary".toList) text with
  | none =>
    simp only [hs, Option.getD_none, hguard]
    have hcand : iciciEndMarkers.filterMap (fun m => findSubFrom text m 0)
        = iciciEndMarkers.filterMap (fun m => findSub m text) :=
      congrArg (fun f => List.filterMap f iciciEndMarkers)
        (funext fun m => findSubFrom_zero text m)
    rw [hcand]
    cases hm : (iciciEndMarkers.filterMap (fun m => findSub m text)).min? with
    | some c =>
      simp only [hm, Option.getD_some]
      unfold pySlice
      rw [List.drop_zero]
      rfl
    | none =>
      simp only [hm, Option.getD_none]
      unfold pySlice
      rw [List.drop_zero, Nat.sub_zero, List.take_length]
  | some s =>
    simp only [hs, Option.getD_some, hguard]
    have hcand : iciciEndMarkers.filterMap (fun m => findSubFrom text m s)
        = (iciciEndMarkers.filterMap (fun m => findSub m (text.drop s))).map
            (fun x => x + s) := by
      rw [List.map_filterMap]
      exact congrArg (fun f => List.filterMap f iciciEndMarkers)
        (funext fun m => rfl)
    rw [hcand, min?_map_add]
    cases hm : (iciciEndMarkers.filterMap (fun m => findSub m (text.drop s))).min? with
    | some c =>
      simp only [hm, Option.map_some', Option.getD_some]
      unfold pySlice
      rw [Nat.add_sub_cancel]
    | none =>
      simp only [hm, Option.map_none', Option.getD_none]
      unfold pySlice
      exact (List.take_of_length_le (le_of_eq (List.length_drop s text))).symm

theorem axis_section_fail_closed (text : Chars)
    (h : findSub ("Account Summary".toList) text = none) :
    axisTransactionsSection text = [] := by
  unfold axisTransactionsSection
  simp only [h]
/-- C4 counterexample: the axis strategy is fail-closed, not fail-open.
On a document that lacks the `"Account Summary"` start marker the
reference bound of the claim returns the whole (non-empty) text, while
axis returns the empty section, so its extraction sees nothing. -/
theorem C4_counterexample :
    axisTransactionsSection ("01/01/2024 PAYMENT 100.00 Dr".toList) = [] ∧
    specSectionBound ("01/01/2024 PAYMENT 100.00 Dr".toList)
        ("Account Summary".toList) (["**** End of Statement ****".toList])
      = ("01/01/2024 PAYMENT 100.00 Dr".toList) ∧
    ("01/01/2024 PAYMENT 100.00 Dr".toList) ≠ ([] : Chars) := by
  refine ⟨by decide, by decide, by decide⟩

/-- C4 (amended): the icici strategy's section bounding equals the
claim's reference definition on every document text; the axis strategy
deviates in two ways: it is fail-closed (an absent start marker yields
the empty section, not the whole text), and it looks the end marker up
from the beginning of the document rather than from the start marker, so
an end marker occurring before the start empties the section
(`text[s:e]` with `e <= s`). -/
theorem C4_amended :
    (∀ text : Chars, iciciTransactionsSection text =
      specSectionBound text ("Account Summary".toList) iciciEndMarkers) ∧
    (∀ text : Chars, findSub ("Account Summary".toList) text = none →
      axisTransactionsSection text = []) ∧
    (∀ (text : Chars) (s e : Nat),
      findSub ("Account Summary".toList) text = some s →
      findSub ("**** End of Statement ****".toList) text = some e →
      axisTransactionsSection text = pySlice text s e) := by
  refine ⟨icici_section_eq_spec, axis_section_fail_closed, ?_⟩
  intro text s e hs he
  unfold axisTransactionsSection
  simp only [hs, he]

/-- Witness for C4 (amended): the icici conjunct at a document holding
both markers, the fail-closed conjunct at a marker-free document, and
the global-end-search conjunct at a document whose end marker precedes
its start marker (the resulting axis section is empty). -/
theorem C4_amended_witness :
    iciciTransactionsSection ("A Account Summary B Important Message C".toList) =
      specSectionBound ("A Account Summary B Important Message C".toList)
        ("Account Summary".toList) iciciEndMarkers ∧
    (findSub ("Account Summary".toList) ("01/01/2024 X 1.00".toList) = none ∧
      axisTransactionsSection ("01/01/2024 X 1.00".toList) = []) ∧
    (findSub ("Account Summary".toList)
        ("**** End of Statement ****Account Summary".toList) = some 26 ∧
      findSub ("**** End of Statement ****".toList)
        ("**** End of Statement ****Account Summary".toList) = some 0 ∧
      axisTransactionsSection ("**** End of Statement ****Account Summary".toList) =
        pySlice ("**** End of Statement ****Account Summary".toList) 26 0) :=
  ⟨C4_amended.1 ("A Account Summary B Important Message C".toList),
    ⟨by decide, C4_amended.2.1 ("01/01/2024 X 1.00".toList) (by decide)⟩,
    ⟨by decide, by decide,
      C4_amended.2.2 ("**** End of Statement ****Account Summary".toList) 26 0
        (by decide) (by decide)⟩⟩
/-- C10: on empty document text every issuer pipeline returns normally
(no raised exception) with a complete record whose identity and summary
fields are all empty or absent and whose transaction list is empty; the
card-last4 list (extracted by the PDF collaborators, passed in) is
carried through unchanged. -/
theorem C10_empty_text_pipelines (l4 : List Chars) :
    Axis.parse_statement_text [] l4 = .ok
      { card_last4_digits := l4, name := [], statement_period := [],
        payment_due_date := [], statement_generated_date := [],
        total_payment_due := none, minimum_payment_due := none,
        transactions := [] } ∧
    Icici.parse_statement_text [] l4 = .ok
      { card_last4_digits := l4, masked_card_number := [], name := [],
        statement_date := [], statement_period := [],
        payment_due_date := [], total_amount_due := none,
        minimum_amount_due := none, transactions := [] } ∧
    Hdfc.parse_statement_text [] [] [] l4 = .ok
      { card_last4_digits := l4,
        statement_info :=
          { name := none, statement_date := none, payment_due_date := none,
            total_dues := none, minimum_amount_due := none },
        transactions := [] } ∧
    Idfc.parse_statement_text [] l4 = .ok
      { card_last4_digits := l4, masked_card_number := [], name := [],
        statement_period := [], statement_date := [],
        payment_due_date := [], total_amount_due := none,
        minimum_amount_due := none, credit_limit := none,
        available_credit_limit := none, cash_limit := none,
        available_cash := none, transactions := [] } ∧
    Rbl.parse_statement_text [] l4 = .ok
      { card_last4_digits := l4, masked_card_number := [], name := [],
        statement_period := [], payment_due_date := [],
        total_amount_due := none, minimum_amount_due := none,
        transactions := [] } :=
  ⟨rfl, rfl, rfl, rfl, rfl⟩
theorem isDig_not_glyph {c : Char} (h : isDig c = true) : isIdfcGlyph c = false := by
  have h1 := (isDig_ne h).2.1
  have hs := isDig_not_pySpace h
  have hx : c ≠ '₹' ∧ c ≠ 'r' ∧ c ≠ 'R' ∧ c ≠ 's' ∧ c ≠ 'S' ∧ c ≠ '`' := by
    refine ⟨?_, ?_, ?_, ?_, ?_, ?_⟩ <;>
      (intro he; subst he; exact absurd h (by decide))
  obtain ⟨a1, a2, a3, a4, a5, a6⟩ := hx
  simp [isIdfcGlyph, a1, a2, a3, a4, a5, a6, h1, hs]

/-- The IDFC/RBL amount pattern accepts a bare all-digit token: the
optional fraction is skipped and the run itself is the amount group. -/
theorem glyphDecimalAmtAt_digits (tailOk : Chars → Option (Option Chars))
    (h0 : tailOk [] = some none) :
    ∀ ds : Chars, ds ≠ [] → (∀ c ∈ ds, isDig c = true) →
      glyphDecimalAmtAt tailOk ds = some (ds, none)
  | a :: t, _, hd => by
    have ha : isDig a = true := hd a (List.mem_cons_self a t)
    have hne : ¬((a :: t).head? = some '-') := by
      intro hc
      exact (isDig_ne ha).2.2 (Option.some.inj hc)
    have hdc : ∀ c ∈ a :: t, isDigitComma c = true := by
      intro c hc
      simp only [isDigitComma, Bool.or_eq_true]
      exact Or.inl (hd c hc)
    simp only [glyphDecimalAmtAt, if_neg hne]
    rw [List.takeWhile_cons, List.dropWhile_cons]
    simp only [isDig_not_glyph ha, Bool.false_eq_true, if_false]
    rw [takeWhile_eq_self_of_all hdc, dropWhile_eq_nil_of_all hdc]
    simp [h0]

/-- C6 counterexample: the IDFC (and RBL) amount pattern makes the
decimal fraction optional, so a row body ending in the bare digit token
`"12345"` matches and the full IDFC extraction emits a transaction with
amount `12345` from it, against the claim's only-`.dd`-tokens rule. -/
theorem C6_counterexample :
    Idfc.extract_transactions
        ("YOUR TRANSACTIONS\n01/01/2024 PAYMENT REF 12345".toList) =
      .ok [{ date := "01/01/2024".toList,
             description := "PAYMENT REF".toList,
             amount := 12345, type := TxType.debit }] ∧
    idfcAmtAt ("12345".toList) = some ("12345".toList, none) ∧
    rblAmtAt ("12345".toList) = some ("12345".toList, none) ∧
    axisAmtAt ("12345".toList) = none ∧
    hdfcAmtAt ("12345".toList) = none := by
  refine ⟨by decide, by decide, by decide, by decide, by decide⟩

/-- C6 (amended): the axis, hdfc and icici trailing amount patterns
match only tokens whose amount group ends in a decimal point followed by
exactly two digits (optional leading minus, then a non-empty run of
digits and thousands separators); the idfc and rbl patterns instead make
the fraction optional and accept every bare all-digit token, emitting it
as the amount group with no flag. -/
theorem C6_amended :
    (∀ cs amt flag, axisAmtAt cs = some (amt, flag) →
      ∃ minus run a b, amt = minus ++ run ++ ['.', a, b] ∧
        (minus = [] ∨ minus = ['-']) ∧ run ≠ [] ∧
        (∀ c ∈ run, isDigitComma c = true) ∧
        isDig a = true ∧ isDig b = true) ∧
    (∀ cs amt flag, hdfcAmtAt cs = some (amt, flag) →
      ∃ minus run a b, amt = minus ++ run ++ ['.', a, b] ∧
        (minus = [] ∨ minus = ['-']) ∧ run ≠ [] ∧
        (∀ c ∈ run, isDigitComma c = true) ∧
        isDig a = true ∧ isDig b = true) ∧
    iciciAmtAt = axisAmtAt ∧
    (∀ ds : Chars, ds ≠ [] → (∀ c ∈ ds, isDig c = true) →
      idfcAmtAt ds = some (ds, none) ∧ rblAmtAt ds = some (ds, none)) := by
  refine ⟨?_, ?_, rfl, ?_⟩
  · intro cs amt flag h
    exact trailDecimalAmtAt_shape _ cs amt flag h
  · intro cs amt flag h
    exact trailDecimalAmtAt_shape _ cs amt flag h
  · intro ds hne hd
    constructor
    · exact glyphDecimalAmtAt_digits _ rfl ds hne hd
    · exact glyphDecimalAmtAt_digits _ rfl ds hne hd

/-- Witness for C6 (amended): the axis conjunct at the matching body
`"1,234.56 Cr"`, the hdfc conjunct at `"99.00Cr"`, and the bare-digit
conjunct at `"12345"`. -/
theorem C6_amended_witness :
    (axisAmtAt ("1,234.56 Cr".toList) =
        some ("1,234.56".toList, some ("Cr".toList)) ∧
      (∃ minus run a b, ("1,234.56".toList : Chars) =
          minus ++ run ++ ['.', a, b] ∧
        (minus = [] ∨ minus = ['-']) ∧ run ≠ [] ∧
        (∀ c ∈ run, isDigitComma c = true) ∧
        isDig a = true ∧ isDig b = true)) ∧
    (hdfcAmtAt ("99.00Cr".toList) =
        some ("99.00".toList, some ("Cr".toList)) ∧
      (∃ minus run a b, ("99.00".toList : Chars) =
          minus ++ run ++ ['.', a, b] ∧
        (minus = [] ∨ minus = ['-']) ∧ run ≠ [] ∧
        (∀ c ∈ run, isDigitComma c = true) ∧
        isDig a = true ∧ isDig b = true)) ∧
    (idfcAmtAt ("12345".toList) = some ("12345".toList, none) ∧
      rblAmtAt ("12345".toList) = some ("12345".toList, none)) :=
  ⟨⟨by decide,
      C6_amended.1 ("1,234.56 Cr".toList) ("1,234.56".toList)
        (some ("Cr".toList)) (by decide)⟩,
    ⟨by decide,
      C6_amended.2.1 ("99.00Cr".toList) ("99.00".toList)
        (some ("Cr".toList)) (by decide)⟩,
    C6_amended.2.2.2 ("12345".toList) (by decide) (by decide)⟩
/-- C7: the amount pattern must match anchored at the end of the merged
row body — a successful search is exactly a leftmost position whose
whole remaining suffix the matcher consumes, so an amount appearing only
in the interior of the body never counts; when no trailing match exists
the row handler returns `ok none` (no exception, no signal), and the
loop emits every other row unchanged around such a skipped span. -/
theorem C7_trailing_anchor_silent_drop :
    (∀ (body : Chars) (p : Nat) (amt : Chars) (flag : Option Chars),
      searchEnd axisAmtAt body = some (p, amt, flag) ↔
        (axisAmtAt (body.drop p) = some (amt, flag) ∧ p ≤ body.length ∧
          ∀ q, q < p → axisAmtAt (body.drop q) = none)) ∧
    (∀ (body : Chars) (p : Nat) (amt : Chars) (flag : Option Chars),
      searchEnd rblAmtAt body = some (p, amt, flag) ↔
        (rblAmtAt (body.drop p) = some (amt, flag) ∧ p ≤ body.length ∧
          ∀ q, q < p → rblAmtAt (body.drop q) = none)) ∧
    (∀ date body : Chars, searchEnd axisAmtAt body = none →
      Axis.txOfRow date body = .ok none) ∧
    (∀ date body : Chars, searchEnd rblAmtAt body = none →
      Rbl.txOfRow date body = .ok none) ∧
    (∀ (step : Nat × Nat → Except PyErr (Option Transaction))
        (pre : List (Nat × Nat)) (sp : Nat × Nat) (post : List (Nat × Nat)),
      step sp = .ok none →
      runRows step (pre ++ sp :: post) = runRows step (pre ++ post)) := by
  refine ⟨?_, ?_, ?_, ?_, runRows_skip⟩
  · intro body p amt flag
    exact searchEnd_eq_some axisAmtAt body p (amt, flag)
  · intro body p amt flag
    exact searchEnd_eq_some rblAmtAt body p (amt, flag)
  · intro date body h
    unfold Axis.txOfRow
    rw [h]
  · intro date body h
    unfold Rbl.txOfRow
    rw [h]

/-- Witness for C7: the anchored-search conjuncts at bodies with one
trailing amount, the silent-drop conjuncts at a body whose only amount
token sits in the interior (and one with no amount at all), and the
skip conjunct at a one-span loop. -/
theorem C7_trailing_anchor_silent_drop_witness :
    (axisAmtAt (("PAY 123.45".toList).drop 4) =
        some ("123.45".toList, none) ∧ 4 ≤ ("PAY 123.45".toList).length ∧
      ∀ q, q < 4 → axisAmtAt (("PAY 123.45".toList).drop q) = none) ∧
    (rblAmtAt (("PAY 19".toList).drop 3) =
        some (" 19".toList, none) ∧ 3 ≤ ("PAY 19".toList).length ∧
      ∀ q, q < 3 → rblAmtAt (("PAY 19".toList).drop q) = none) ∧
    (searchEnd axisAmtAt ("REF 123.45 SEEN LATER".toList) = none ∧
      Axis.txOfRow ("01/01/2024".toList) ("REF 123.45 SEEN LATER".toList) =
        .ok none) ∧
    (searchEnd rblAmtAt ("NO AMOUNT HERE".toList) = none ∧
      Rbl.txOfRow ("01-Jan-2024".toList) ("NO AMOUNT HERE".toList) =
        .ok none) ∧
    runRows (fun _ => .ok none) ([] ++ (0, 1) :: []) =
      runRows (fun _ => .ok none) ([] ++ []) :=
  ⟨(C7_trailing_anchor_silent_drop.1 ("PAY 123.45".toList) 4
      ("123.45".toList) none).mp (by decide),
    (C7_trailing_anchor_silent_drop.2.1 ("PAY 19".toList) 3
      (" 19".toList) none).mp (by decide),
    ⟨by decide,
      C7_trailing_anchor_silent_drop.2.2.1 ("01/01/2024".toList)
        ("REF 123.45 SEEN LATER".toList) (by decide)⟩,
    ⟨by decide,
      C7_trailing_anchor_silent_drop.2.2.2.1 ("01-Jan-2024".toList)
        ("NO AMOUNT HERE".toList) (by decide)⟩,
    C7_trailing_anchor_silent_drop.2.2.2.2 (fun _ => .ok none)
      [] (0, 1) [] rfl⟩
/-- The currency-glyph alphabet of the documented raw-token shape: the
leading-glyph class of the IDFC/RBL amount patterns without the decimal
point (rupee sign, backtick, the letters of `"Rs"` in either case,
whitespace). -/
def isDocGlyph (c : Char) : Bool :=
  c = '₹' || c = '`' || c = 'R' || c = 'r' || c = 's' || c = 'S' || isPySpace c

/-- Modelled from the spec (§4.1 Amount Normalization), the reference
rule of claim C3: strip every character that is not a digit, a decimal
point, or a (leading) minus, and parse the remainder as a decimal.  In a
token of the documented shape the only minus is the leading one, so the
plain filter implements the leading-minus rule. -/
def specStripParse (t : Chars) : Option ℚ :=
  pyDecimal (t.filter (fun c => isDig c || c = '.' || c = '-'))

theorem pySpace_not_dig {c : Char} (h : isPySpace c = true) : isDig c = false := by
  cases hd : isDig c with
  | false => rfl
  | true => exact absurd h (by rw [isDig_not_pySpace hd]; exact Bool.false_ne_true)

theorem docGlyph_not_keep {c : Char} (h : isDocGlyph c = true) :
    (isDig c || c = '.' || c = '-') = false := by
  simp only [isDocGlyph, Bool.or_eq_true, decide_eq_true_eq] at h
  rcases h with ((((((h | h) | h) | h) | h) | h) | h)
  · subst h; rfl
  · subst h; rfl
  · subst h; rfl
  · subst h; rfl
  · subst h; rfl
  · subst h; rfl
  · have h1 := pySpace_not_dig h
    have h2 : c ≠ '.' := by intro he; subst he; exact absurd h (by decide)
    have h3 : c ≠ '-' := by intro he; subst he; exact absurd h (by decide)
    simp [h1, h2, h3]

theorem keep_filter_doc (minus glyphs run frac : Chars)
    (hm : minus = [] ∨ minus = ['-'])
    (hg : ∀ c ∈ glyphs, isDocGlyph c = true)
    (hr : ∀ c ∈ run, isDigitComma c = true)
    (hf : frac = [] ∨ ∃ fd, frac = '.' :: fd ∧ ∀ c ∈ fd, isDig c = true) :
    (minus ++ glyphs ++ run ++ frac).filter
        (fun c => isDig c || c = '.' || c = '-')
      = minus ++ run.filter isDig ++ frac := by
  rw [List.filter_append, List.filter_append, List.filter_append]
  have h1 : minus.filter (fun c => isDig c || c = '.' || c = '-') = minus := by
    rcases hm with h | h <;> subst h <;> rfl
  have h2 : glyphs.filter (fun c => isDig c || c = '.' || c = '-') = [] := by
    rw [List.filter_eq_nil_iff]
    intro c hc
    simp only [docGlyph_not_keep (hg c hc), Bool.false_eq_true, not_false_eq_true]
  have h3 : run.filter (fun c => isDig c || c = '.' || c = '-') =
      run.filter isDig := by
    apply List.filter_congr
    intro c hc
    have := hr c hc
    simp only [isDigitComma, Bool.or_eq_true, decide_eq_true_eq] at this
    rcases this with h | h
    · simp [h]
    · subst h; rfl
  have h4 : frac.filter (fun c => isDig c || c = '.' || c = '-') = frac := by
    rcases hf with h | ⟨fd, hfr, hfd⟩
    · subst h; rfl
    · subst hfr
      rw [List.filter_eq_self]
      intro c hc
      rcases List.mem_cons.mp hc with h | h
      · subst h; rfl
      · simp [hfd c h]
  rw [h1, h2, h3, h4, List.append_nil]

theorem comma_filter_doc (minus run frac : Chars)
    (hm : minus = [] ∨ minus = ['-'])
    (hr : ∀ c ∈ run, isDigitComma c = true)
    (hf : frac = [] ∨ ∃ fd, frac = '.' :: fd ∧ ∀ c ∈ fd, isDig c = true) :
    (minus ++ run ++ frac).filter (fun c => c ≠ ',')
      = minus ++ run.filter isDig ++ frac := by
  rw [List.filter_append, List.filter_append]
  have h1 : minus.filter (fun c => c ≠ ',') = minus := by
    rcases hm with h | h <;> subst h <;> rfl
  have h3 : run.filter (fun c => c ≠ ',') = run.filter isDig := by
    apply List.filter_congr
    intro c hc
    have := hr c hc
    simp only [isDigitComma, Bool.or_eq_true, decide_eq_true_eq] at this
    rcases this with h | h
    · simp [h, (isDig_ne h).1]
    · subst h; rfl
  have h4 : frac.filter (fun c => c ≠ ',') = frac := by
    rcases hf with h | ⟨fd, hfr, hfd⟩
    · subst h; rfl
    · subst hfr
      rw [List.filter_eq_self]
      intro c hc
      rcases List.mem_cons.mp hc with h | h
      · subst h; rfl
      · simp [(isDig_ne (hfd c h)).1]
  rw [h1, h3, h4]
theorem isEmpty_false_of_ne_nil {l : Chars} (h : l ≠ []) : l.isEmpty = false := by
  cases l with
  | nil => exact absurd rfl h
  | cons a t => rfl

/-- C3 counterexample: the documented token `"₹500.00"` (currency glyph,
then a plain decimal).  The reference strip-and-parse rule gives `500`;
the idfc and rbl normalizers implement it, but the axis and icici
normalizers only remove commas, hand `"₹500.00"` to `Decimal`, and raise
`InvalidOperation`. -/
theorem C3_counterexample :
    specStripParse ("₹500.00".toList) = some ((500 : ℚ)) ∧
    idfcNormalizeAmount (some ("₹500.00".toList)) none = .ok (some 500) ∧
    rblNormalizeAmount (some ("₹500.00".toList)) none = .ok (some 500) ∧
    axisNormalizeAmount (some ("₹500.00".toList)) none =
      .error .invalidOperation ∧
    iciciNormalizeAmount (some ("₹500.00".toList)) none =
      .error .invalidOperation := by
  refine ⟨by decide, by decide, by decide, by decide, by decide⟩

/-- C3 (amended): over every raw token of the documented shape — an
optional leading minus, then currency glyphs/backticks/whitespace, then
a non-empty digit run with optional thousands separators (at least one
digit), then an optional decimal point with 1–2 fractional digits — the
idfc and rbl normalizers return, without raising, exactly the reference
strip-and-parse value; the axis and icici normalizers do so exactly for
the glyph-free tokens (they only remove commas). -/
theorem C3_amended :
    (∀ minus glyphs run frac : Chars,
      (minus = [] ∨ minus = ['-']) →
      (∀ c ∈ glyphs, isDocGlyph c = true) →
      (∀ c ∈ run, isDigitComma c = true) →
      run.filter isDig ≠ [] →
      (frac = [] ∨ ∃ fd, frac = '.' :: fd ∧ fd ≠ [] ∧ fd.length ≤ 2 ∧
        ∀ c ∈ fd, isDig c = true) →
      ∃ v : ℚ,
        specStripParse (minus ++ glyphs ++ run ++ frac) = some v ∧
        idfcNormalizeAmount (some (minus ++ glyphs ++ run ++ frac)) none =
          .ok (some v) ∧
        rblNormalizeAmount (some (minus ++ glyphs ++ run ++ frac)) none =
          .ok (some v)) ∧
    (∀ minus run frac : Chars,
      (minus = [] ∨ minus = ['-']) →
      (∀ c ∈ run, isDigitComma c = true) →
      run.filter isDig ≠ [] →
      (frac = [] ∨ ∃ fd, frac = '.' :: fd ∧ fd ≠ [] ∧ fd.length ≤ 2 ∧
        ∀ c ∈ fd, isDig c = true) →
      ∃ v : ℚ,
        specStripParse (minus ++ run ++ frac) = some v ∧
        axisNormalizeAmount (some (minus ++ run ++ frac)) none = .ok v ∧
        iciciNormalizeAmount (some (minus ++ run ++ frac)) none =
          .ok (some v)) := by
  constructor
  · intro minus glyphs run frac hm hg hr hrd hf
    have hf' : frac = [] ∨ ∃ fd, frac = '.' :: fd ∧ ∀ c ∈ fd, isDig c = true := by
      rcases hf with h | ⟨fd, h1, _, _, h4⟩
      · exact Or.inl h
      · exact Or.inr ⟨fd, h1, h4⟩
    have hrun' : ∀ c ∈ run.filter isDig, isDig c = true := by
      intro c hc
      exact (List.mem_filter.mp hc).2
    have hclean := keep_filter_doc minus glyphs run frac hm hg hr hf'
    have hsome := pyDecimal_isSome_of_shape minus (run.filter isDig) frac
      hm hrun' hf' (Or.inl hrd)
    obtain ⟨v, hv⟩ := Option.isSome_iff_exists.mp hsome
    refine ⟨v, ?_, ?_, ?_⟩
    · unfold specStripParse
      rw [hclean, hv]
    · have htne : (minus ++ glyphs ++ run ++ frac) ≠ [] := by
        intro h
        have := congrArg List.length h
        simp only [List.length_append, List.length_nil] at this
        have hrne : run ≠ [] := by
          intro h'
          exact hrd (by rw [h']; rfl)
        cases hrun : run with
        | nil => exact hrne hrun
        | cons a t => rw [hrun] at this; simp at this
      simp only [idfcNormalizeAmount, pyFalsy, isEmpty_false_of_ne_nil htne,
        Bool.false_eq_true, if_false, Option.getD_some]
      rw [hclean]
      have hcne : (minus ++ run.filter isDig ++ frac) ≠ [] := by
        intro h
        rcases List.append_eq_nil.mp h with ⟨h1, h2⟩
        rcases List.append_eq_nil.mp h1 with ⟨h3, h4⟩
        exact hrd h4
      rw [isEmpty_false_of_ne_nil hcne]
      simp only [Bool.false_eq_true, if_false]
      rw [hv]
      simp only [idfcCrSign, Bool.false_eq_true, if_false]
    · exact (by
        have : rblNormalizeAmount = idfcNormalizeAmount := rfl
        rw [this]
        have htne : (minus ++ glyphs ++ run ++ frac) ≠ [] := by
          intro h
          rcases List.append_eq_nil.mp h with ⟨h1, _⟩
          rcases List.append_eq_nil.mp h1 with ⟨h3, h4⟩
          exact hrd (by rw [h4]; rfl)
        simp only [idfcNormalizeAmount, pyFalsy, isEmpty_false_of_ne_nil htne,
          Bool.false_eq_true, if_false, Option.getD_some]
        rw [hclean]
        have hcne : (minus ++ run.filter isDig ++ frac) ≠ [] := by
          intro h
          rcases List.append_eq_nil.mp h with ⟨h1, h2⟩
          rcases List.append_eq_nil.mp h1 with ⟨h3, h4⟩
          exact hrd h4
        rw [isEmpty_false_of_ne_nil hcne]
        simp only [Bool.false_eq_true, if_false]
        rw [hv]
        simp only [idfcCrSign, Bool.false_eq_true, if_false])
  · intro minus run frac hm hr hrd hf
    have hf' : frac = [] ∨ ∃ fd, frac = '.' :: fd ∧ ∀ c ∈ fd, isDig c = true := by
      rcases hf with h | ⟨fd, h1, _, _, h4⟩
      · exact Or.inl h
      · exact Or.inr ⟨fd, h1, h4⟩
    have hrun' : ∀ c ∈ run.filter isDig, isDig c = true := by
      intro c hc
      exact (List.mem_filter.mp hc).2
    have hclean := comma_filter_doc minus run frac hm hr hf'
    have hkeep := keep_filter_doc minus [] run frac hm (by intro c hc; cases hc) hr hf'
    have hsome := pyDecimal_isSome_of_shape minus (run.filter isDig) frac
      hm hrun' hf' (Or.inl hrd)
    obtain ⟨v, hv⟩ := Option.isSome_iff_exists.mp hsome
    refine ⟨v, ?_, ?_, ?_⟩
    · unfold specStripParse
      have : minus ++ run ++ frac = minus ++ [] ++ run ++ frac := by simp
      rw [this, hkeep, hv]
    · simp only [axisNormalizeAmount]
      rw [hclean, hv]
      simp only [axisCrSign, Bool.false_eq_true, if_false]
    · have htne : (minus ++ run ++ frac) ≠ [] := by
        intro h
        rcases List.append_eq_nil.mp h with ⟨h1, _⟩
        rcases List.append_eq_nil.mp h1 with ⟨_, h4⟩
        exact hrd (by rw [h4]; rfl)
      simp only [iciciNormalizeAmount, pyFalsy, isEmpty_false_of_ne_nil htne,
        Bool.false_eq_true, if_false]
      simp only [axisNormalizeAmount]
      rw [hclean, hv]
      simp only [axisCrSign, Bool.false_eq_true, if_false, Except.map]

/-- Witness for C3 (amended): the glyphed conjunct at
`"₹1,234.56"` and the glyph-free conjunct at `"-1,000.50"`. -/
theorem C3_amended_witness :
    (∃ v : ℚ,
      specStripParse (("₹".toList) ++ ("1,234".toList) ++ (".56".toList) : Chars) =
        some v ∧
      idfcNormalizeAmount
          (some (([] : Chars) ++ ("₹".toList) ++ ("1,234".toList) ++ (".56".toList)))
          none = .ok (some v) ∧
      rblNormalizeAmount
          (some (([] : Chars) ++ ("₹".toList) ++ ("1,234".toList) ++ (".56".toList)))
          none = .ok (some v)) ∧
    (∃ v : ℚ,
      specStripParse (("-".toList) ++ ("1,000".toList) ++ (".50".toList)) = some v ∧
      axisNormalizeAmount
          (some (("-".toList) ++ ("1,000".toList) ++ (".50".toList))) none = .ok v ∧
      iciciNormalizeAmount
          (some (("-".toList) ++ ("1,000".toList) ++ (".50".toList))) none =
        .ok (some v)) := by
  constructor
  · have h := C3_amended.1 [] ("₹".toList) ("1,234".toList) (".56".toList)
      (Or.inl rfl) (by decide) (by decide) (by decide)
      (Or.inr ⟨"56".toList, by decide, by decide, by decide, by decide⟩)
    simpa using h
  · exact C3_amended.2 ("-".toList) ("1,000".toList) (".50".toList)
      (Or.inr rfl) (by decide) (by decide)
      (Or.inr ⟨"50".toList, by decide, by decide, by decide, by decide⟩)
/-- The pure row value of the Axis per-row handler (what `Axis.txOfRow`
returns inside `.ok`; the `Decimal` parse of a matched amount group
never fails, see `trailDecimalAmtAt_parses`). -/
def axisRowTx (date body : Chars) : Option Transaction :=
  match searchEnd axisAmtAt body with
  | none => none
  | some (p, amt, flag) =>
    match pyDecimal (amt.filter (fun c => c ≠ ',')) with
    | none => none
    | some v =>
      let amount := if axisCrSign flag then -v else v
      some ⟨date, pyStrip (body.take p), amount,
        if amount < 0 then TxType.credit else TxType.debit⟩

/-- The pure row value of the HDFC per-row handler. -/
def hdfcRowTx (date rest : Chars) : Option Transaction :=
  match searchEnd hdfcAmtAt rest with
  | none => none
  | some (p, amt, creditFlag) =>
    match pyDecimal (amt.filter (fun c => c ≠ ',')) with
    | none => none
    | some v =>
      some ⟨date, pyStrip (rest.take p), v,
        if creditFlag.isSome then TxType.credit else TxType.debit⟩

theorem axis_txOfRow_eq_pure (date body : Chars) :
    Axis.txOfRow date body = .ok (axisRowTx date body) := by
  cases hs : searchEnd axisAmtAt body with
  | none => simp only [Axis.txOfRow, axisRowTx, hs]
  | some pa =>
    obtain ⟨p, amt, flag⟩ := pa
    have hf : axisAmtAt (body.drop p) = some (amt, flag) :=
      ((searchEnd_eq_some axisAmtAt body p (amt, flag)).mp hs).1
    have hps := trailDecimalAmtAt_parses _ _ _ _ hf
    obtain ⟨v, hv⟩ := Option.isSome_iff_exists.mp hps
    simp only [Axis.txOfRow, axisRowTx, hs, hv,
      axisNormalizeAmount_eq amt flag v hv]
    simp [Except.bind, bind, pure, Except.pure]

theorem hdfc_txOfRow_eq_pure (date rest : Chars) :
    Hdfc.txOfRow date rest = .ok (hdfcRowTx date rest) := by
  cases hs : searchEnd hdfcAmtAt rest with
  | none => simp only [Hdfc.txOfRow, hdfcRowTx, hs]
  | some pa =>
    obtain ⟨p, amt, flag⟩ := pa
    have hf : hdfcAmtAt (rest.drop p) = some (amt, flag) :=
      ((searchEnd_eq_some hdfcAmtAt rest p (amt, flag)).mp hs).1
    have hps := trailDecimalAmtAt_parses _ _ _ _ hf
    obtain ⟨v, hv⟩ := Option.isSome_iff_exists.mp hps
    simp only [Hdfc.txOfRow, hdfcRowTx, hs, hv]

theorem axis_extract_eq_filterMap (sectionText : Chars) :
    Axis.extract_transactions sectionText =
      .ok (List.filterMap
        (fun sp => (rowAt slashDateRowStart (pySplitlines sectionText) sp).bind
          (fun db => axisRowTx db.1 db.2))
        (rowSpans (anchorIdxs slashDateRowStart (pySplitlines sectionText))
          (pySplitlines sectionText).length)) := by
  unfold Axis.extract_transactions extractTransactionsWith
  apply runRows_eq_filterMap
  intro sp _
  cases hr : rowAt slashDateRowStart (pySplitlines sectionText) sp with
  | none => simp only [hr, Option.bind]
  | some db =>
    simp only [hr, Option.bind]
    exact axis_txOfRow_eq_pure db.1 db.2

theorem hdfc_extract_eq_filterMap (block : Chars) :
    Hdfc.extract_transactions block =
      .ok (List.filterMap
        (fun sp => (rowAt slashDateRowStart
            (pySplitlines (replaceSub ("\r\n".toList) ("\n".toList) block)) sp).bind
          (fun db => hdfcRowTx db.1 db.2))
        (rowSpans
          (anchorIdxs slashDateRowStart
            (pySplitlines (replaceSub ("\r\n".toList) ("\n".toList) block)))
          (pySplitlines (replaceSub ("\r\n".toList) ("\n".toList) block)).length)) := by
  unfold Hdfc.extract_transactions extractTransactionsWith
  apply runRows_eq_filterMap
  intro sp _
  cases hr : rowAt slashDateRowStart
      (pySplitlines (replaceSub ("\r\n".toList) ("\n".toList) block)) sp with
  | none => simp only [hr, Option.bind]
  | some db =>
    simp only [hr, Option.bind]
    exact hdfc_txOfRow_eq_pure db.1 db.2
/-- C5: row reconstruction over a bounded section.  With `as` the
anchor-line indices and `spans = rowSpans as len`: every anchor starts
its own span (the spans' starts are exactly `as`, in order), each span
ends where the next begins, the last span ends at the section length, no
two spans overlap, every date-anchored line lies in exactly one span,
and the Axis and HDFC loops emit exactly the per-span results of the
spans in span (= document) order, never re-sorted. -/
theorem C5_row_spans_partition_order (isRow : Chars → Option Chars)
    (lines : List Chars) :
    ((rowSpans (anchorIdxs isRow lines) lines.length).map Prod.fst
        = anchorIdxs isRow lines) ∧
    List.Chain' (fun s t : Nat × Nat => s.2 = t.1)
      (rowSpans (anchorIdxs isRow lines) lines.length) ∧
    (∀ sp : Nat × Nat,
      (rowSpans (anchorIdxs isRow lines) lines.length).getLast? = some sp →
      sp.2 = lines.length) ∧
    List.Pairwise (fun s t : Nat × Nat => s.2 ≤ t.1)
      (rowSpans (anchorIdxs isRow lines) lines.length) ∧
    (∀ i : Nat, i < lines.length → (isRow (lines.getD i [])).isSome →
      ∃ sp ∈ rowSpans (anchorIdxs isRow lines) lines.length,
        (sp.1 ≤ i ∧ i < sp.2) ∧
        ∀ sp' ∈ rowSpans (anchorIdxs isRow lines) lines.length,
          sp'.1 ≤ i → i < sp'.2 → sp' = sp) ∧
    (∀ sectionText : Chars, Axis.extract_transactions sectionText =
      .ok (List.filterMap
        (fun sp => (rowAt slashDateRowStart (pySplitlines sectionText) sp).bind
          (fun db => axisRowTx db.1 db.2))
        (rowSpans (anchorIdxs slashDateRowStart (pySplitlines sectionText))
          (pySplitlines sectionText).length))) ∧
    (∀ block : Chars, Hdfc.extract_transactions block =
      .ok (List.filterMap
        (fun sp => (rowAt slashDateRowStart
            (pySplitlines (replaceSub ("\r\n".toList) ("\n".toList) block)) sp).bind
          (fun db => hdfcRowTx db.1 db.2))
        (rowSpans
          (anchorIdxs slashDateRowStart
            (pySplitlines (replaceSub ("\r\n".toList) ("\n".toList) block)))
          (pySplitlines (replaceSub ("\r\n".toList) ("\n".toList) block)).length))) := by
  refine ⟨rowSpans_map_fst _ _, rowSpans_chain _ _,
    fun sp h => rowSpans_getLast _ _ sp h,
    rowSpans_pairwise _ _ (anchorIdxs_sorted isRow lines), ?_,
    axis_extract_eq_filterMap, hdfc_extract_eq_filterMap⟩
  intro i hi hsome
  have hmem : i ∈ anchorIdxs isRow lines :=
    (mem_anchorIdxs isRow lines i).mpr ⟨hi, hsome⟩
  have hmap := rowSpans_map_fst (anchorIdxs isRow lines) lines.length
  have hmm : i ∈ (rowSpans (anchorIdxs isRow lines) lines.length).map Prod.fst := by
    rw [hmap]
    exact hmem
  obtain ⟨sp, hsp, hfst⟩ := List.mem_map.mp hmm
  have hpos : sp.1 < sp.2 :=
    rowSpans_pos (anchorIdxs isRow lines) lines.length
      (anchorIdxs_sorted isRow lines)
      (fun a ha => ((mem_anchorIdxs isRow lines a).mp ha).1) sp hsp
  refine ⟨sp, hsp, ⟨by omega, by omega⟩, ?_⟩
  intro sp' hsp' h1 h2
  by_cases heq : sp' = sp
  · exact heq
  · exfalso
    have hpw : List.Pairwise
        (fun s t : Nat × Nat => s.2 ≤ t.1 ∨ t.2 ≤ s.1)
        (rowSpans (anchorIdxs isRow lines) lines.length) :=
      (rowSpans_pairwise _ _ (anchorIdxs_sorted isRow lines)).imp
        (fun h => Or.inl h)
    have hsymm : Symmetric (fun s t : Nat × Nat => s.2 ≤ t.1 ∨ t.2 ≤ s.1) :=
      fun a b h => h.symm
    have hr := hpw.forall hsymm hsp' hsp heq
    rcases hr with h | h <;> omega
/-- Witness for C5: the span/anchor conjuncts and the exactly-once
coverage (at the anchored line 0) over the lines of a three-line
section with two date anchors, and the Axis emission conjunct at that
section. -/
theorem C5_row_spans_partition_order_witness :
    ((rowSpans
        (anchorIdxs slashDateRowStart
          (pySplitlines ("01/01/2024 COFFEE 3.50\nnote line\n02/01/2024 TEA 2.25 Cr".toList)))
        (pySplitlines ("01/01/2024 COFFEE 3.50\nnote line\n02/01/2024 TEA 2.25 Cr".toList)).length).map
          Prod.fst
      = anchorIdxs slashDateRowStart
          (pySplitlines ("01/01/2024 COFFEE 3.50\nnote line\n02/01/2024 TEA 2.25 Cr".toList))) ∧
    (∃ sp ∈ rowSpans
        (anchorIdxs slashDateRowStart
          (pySplitlines ("01/01/2024 COFFEE 3.50\nnote line\n02/01/2024 TEA 2.25 Cr".toList)))
        (pySplitlines ("01/01/2024 COFFEE 3.50\nnote line\n02/01/2024 TEA 2.25 Cr".toList)).length,
      (sp.1 ≤ 0 ∧ 0 < sp.2) ∧
      ∀ sp' ∈ rowSpans
          (anchorIdxs slashDateRowStart
            (pySplitlines ("01/01/2024 COFFEE 3.50\nnote line\n02/01/2024 TEA 2.25 Cr".toList)))
          (pySplitlines ("01/01/2024 COFFEE 3.50\nnote line\n02/01/2024 TEA 2.25 Cr".toList)).length,
        sp'.1 ≤ 0 → 0 < sp'.2 → sp' = sp) ∧
    Axis.extract_transactions ("01/01/2024 COFFEE 3.50\nnote line\n02/01/2024 TEA 2.25 Cr".toList) =
      .ok (List.filterMap
        (fun sp => (rowAt slashDateRowStart
            (pySplitlines ("01/01/2024 COFFEE 3.50\nnote line\n02/01/2024 TEA 2.25 Cr".toList)) sp).bind
          (fun db => axisRowTx db.1 db.2))
        (rowSpans
          (anchorIdxs slashDateRowStart
            (pySplitlines ("01/01/2024 COFFEE 3.50\nnote line\n02/01/2024 TEA 2.25 Cr".toList)))
          (pySplitlines ("01/01/2024 COFFEE 3.50\nnote line\n02/01/2024 TEA 2.25 Cr".toList)).length)) :=
  ⟨(C5_row_spans_partition_order slashDateRowStart
      (pySplitlines ("01/01/2024 COFFEE 3.50\nnote line\n02/01/2024 TEA 2.25 Cr".toList))).1,
    (C5_row_spans_partition_order slashDateRowStart
      (pySplitlines ("01/01/2024 COFFEE 3.50\nnote line\n02/01/2024 TEA 2.25 Cr".toList))).2.2.2.2.1
      0 (by decide) (by decide),
    (C5_row_spans_partition_order slashDateRowStart
      (pySplitlines ("01/01/2024 COFFEE 3.50\nnote line\n02/01/2024 TEA 2.25 Cr".toList))).2.2.2.2.2.1
      ("01/01/2024 COFFEE 3.50\nnote line\n02/01/2024 TEA 2.25 Cr".toList)⟩
